import Mathlib

/-!
Shallow embedding of the pynab core (nabd): the motorized-ear GPIO controller
(`nabd/ears_gpio.py`) and the ALSA audio engine (`nabd/sound_alsa.py`).

Conventions:
- Python ints are modelled as `Int`; Python `%` and `//` on a positive modulus
  agree with Lean's `Int.emod` / `Int.ediv`, which back `%` and `/` here.
- Time stamps (`time.time()` floats) are modelled as exact rationals `ℚ`;
  the literal `0.4` of the source is the rational `2/5`, `0.3` is `3/10`.
- `None`-able Python fields are `Option`s. Code paths where Python would raise
  (e.g. `None + 1`) are modelled by an `Option` result, `none` = exception.
- GPIO output writes are collected as an explicit action trace.
- The hardware constant `Ears.STEPS` (the class `Ears` lives in `nabd/ears.py`,
  outside the sources at hand; the spec calls it "hardware constant, e.g. 16")
  is kept as an explicit parameter `S` of every definition.
- `Ears.LEFT_EAR = 0`, `Ears.RIGHT_EAR = 1` (from the spec's LEFT/RIGHT axis
  identities and the source's list indexing; the constants themselves are in
  the missing `nabd/ears.py`).
-/

namespace Pynab

/-- A GPIO output write: `GPIO.output(pin, level)` with `true = HIGH`. -/
inductive Gpio where
  | out (pin : Nat) (high : Bool)
deriving DecidableEq, Repr

/-- `EarsGPIO.MOTOR_CHANNELS = [[12, 11], [10, 9]]`, indexed by ear then by
`dir_ix`.  An index outside `{0, 1}` would raise `IndexError` in Python and is
mapped to the junk pin `0` (never reached by the call sites, which pass
directions `1` and `-1` only). -/
def motorChannel (ear : Fin 2) (i : Int) : Nat :=
  if ear = 0 then (if i = 0 then 12 else if i = 1 then 11 else 0)
  else (if i = 0 then 10 else if i = 1 then 9 else 0)

/-- Per-axis slice of the `EarsGPIO` state: `running[ear]`, `targets[ear]`,
`positions[ear]`, `directions[ear]`. -/
structure AxisState where
  running : Bool
  target : Option Int
  position : Option Int
  direction : Int
deriving DecidableEq, Repr

/-- The mutable state of `EarsGPIO`: both axes (ear 0 = LEFT, ear 1 = RIGHT). -/
structure EarsState where
  ax0 : AxisState
  ax1 : AxisState
deriving DecidableEq, Repr

def EarsState.axis (s : EarsState) (ear : Fin 2) : AxisState :=
  if ear = 0 then s.ax0 else s.ax1

def EarsState.setAxis (s : EarsState) (ear : Fin 2) (a : AxisState) : EarsState :=
  if ear = 0 then { s with ax0 := a } else { s with ax1 := a }

/-- The two `GPIO.output(channel, LOW)` writes of `EarsGPIO._stop_motor`. -/
def stopActs (ear : Fin 2) : List Gpio :=
  [Gpio.out (motorChannel ear 0) false, Gpio.out (motorChannel ear 1) false]

/-- `EarsGPIO._stop_motor`: both motor channels LOW, `running = False`,
`direction = 0`. -/
def stop_motor (ear : Fin 2) (s : EarsState) : EarsState × List Gpio :=
  (s.setAxis ear { s.axis ear with running := false, direction := 0 }, stopActs ear)

/-- The two `GPIO.output` writes of `EarsGPIO._start_motor`:
`dir_ix = int((1 - direction) / 2)`, the opposite channel LOW, then the
selected channel HIGH. -/
def startActs (ear : Fin 2) (direction : Int) : List Gpio :=
  let dir_ix : Int := (1 - direction) / 2
  [Gpio.out (motorChannel ear (1 - dir_ix)) false,
   Gpio.out (motorChannel ear dir_ix) true]

/-- `EarsGPIO._start_motor`: drive the H-bridge pair, `running = True`,
record `direction`. -/
def start_motor (ear : Fin 2) (direction : Int) (s : EarsState) :
    EarsState × List Gpio :=
  (s.setAxis ear { s.axis ear with running := true, direction := direction },
   startActs ear direction)

/-- Body of `EarsGPIO._encoder_cb` for the axis the rising edge belongs to
(the callback first maps the GPIO channel to `ear`; we index by ear directly).
Returns the updated axis and whether `_stop_motor` was invoked; `none` models
the `TypeError` Python would raise on `None + direction` (unreachable while a
motor is running).  The `direction == 0` branch marks the position unknown and
notifies the registered move-callback (the notification carries no state and
is not modelled). -/
def axis_step (S : Int) (a : AxisState) : Option (AxisState × Bool) :=
  if a.direction = 0 then
    some ({ a with position := none }, false)
  else
    match a.position with
    | none => none
    | some p =>
      let p' := (p + a.direction) % S
      match a.target with
      | none => some ({ a with position := some p' }, false)
      | some t =>
        if p' = t then
          some ({ a with position := some p', running := false, direction := 0 }, true)
        else if p' = t % S then
          if t ≥ S then
            some ({ a with position := some p', target := some (t - S) }, false)
          else if t < 0 then
            some ({ a with position := some p', target := some (t + S) }, false)
          else
            some ({ a with position := some p' }, false)
        else
          some ({ a with position := some p' }, false)

/-- `EarsGPIO._encoder_cb` on the full two-axis state, with the GPIO writes
issued by a `_stop_motor` call. -/
def encoder_cb (S : Int) (ear : Fin 2) (s : EarsState) :
    Option (EarsState × List Gpio) :=
  match axis_step S (s.axis ear) with
  | none => none
  | some (a', stopped) =>
      some (s.setAxis ear a', if stopped then stopActs ear else [])

/-- Iterate `encoder_cb` on one ear: the sequence of states seen after `n`
successive encoder rising edges on that ear. -/
def cb_iter (S : Int) (ear : Fin 2) : Nat → EarsState → Option EarsState
  | 0, s => some s
  | n + 1, s =>
    match encoder_cb S ear s with
    | none => none
    | some (s', _) => cb_iter S ear n s'

/-- Iterate `axis_step` on a single axis. -/
def axis_iter (S : Int) : Nat → AxisState → Option AxisState
  | 0, a => some a
  | n + 1, a =>
    match axis_step S a with
    | none => none
    | some (a', _) => axis_iter S n a'

/-! ### Homing detection (`EarsGPIO._run_detection`)

The detection loop waits on the condition variable with a 0.3 s timeout and
reacts to (a) signals — encoder edges having moved `self.positions` — and
(b) timeouts.  We model each loop iteration as one `DetEvent` carrying the
wall-clock time `time.time()` and, for a signal, the values of
`self.positions` the loop observes (they were written concurrently by
`_encoder_cb`). -/

/-- One iteration of the `_run_detection` wait loop. -/
inductive DetEvent where
  | signal (now : ℚ) (obs : Option Int × Option Int)
  | timeout (now : ℚ)
deriving DecidableEq, Repr

/-- Read a component of an ear-indexed pair. -/
def pget {α : Type} (p : α × α) (ear : Fin 2) : α :=
  if ear = 0 then p.1 else p.2

/-- Write a component of an ear-indexed pair. -/
def pset {α : Type} (p : α × α) (ear : Fin 2) (x : α) : α × α :=
  if ear = 0 then (x, p.2) else (p.1, x)

/-- Loop-local state of `_run_detection`: the ears state plus
`current_positions` and `previous_risings`. -/
structure DetState where
  ears : EarsState
  cur : Option Int × Option Int
  prev : ℚ × ℚ
deriving DecidableEq, Repr

/-- `Option` field read with Python coercion: positions handled by the
detection loop are always integers (set to 0 before the loop starts); a `none`
here would raise `TypeError` in Python and never occurs on reachable states. -/
def optInt (o : Option Int) : Int := o.getD 0

/-- The target chosen once the missing-hole gap is found:
`target_left` for the LEFT ear when supplied, `target_right` for the RIGHT ear
when supplied, otherwise the default expression of the source. -/
def gap_target (tl tr : Option Int) (ear : Fin 2) (dflt : Int) : Int :=
  if ear = 0 then (match tl with | some t => t | none => dflt)
  else (match tr with | some t => t | none => dflt)

/-- Signal branch of the `_run_detection` loop body for one ear
(source lines: `if self.targets[ear] == None and self.positions[ear] != current_positions[ear]: ...`).
The axis position has already been refreshed from the observed value.  In the
gap branch, `current_positions[ear] = self.positions[ear]` reads the freshly
reset position, i.e. the direction increment. -/
def signal_ear (S : Int) (tl tr : Option Int) (now : ℚ) (ear : Fin 2)
    (ds : DetState) : DetState :=
  if (ds.ears.axis ear).target = none ∧
      (ds.ears.axis ear).position ≠ pget ds.cur ear then
    if now - pget ds.prev ear > 2/5 then
      -- passed the missing hole
      { ds with
        ears := ds.ears.setAxis ear
          { ds.ears.axis ear with
            target := some (gap_target tl tr ear
              (((ds.ears.axis ear).direction -
                optInt (ds.ears.axis ear).position) % S)),
            position := some (ds.ears.axis ear).direction },
        cur := pset ds.cur ear (some (ds.ears.axis ear).direction),
        prev := pset ds.prev ear now }
    else
      { ds with
        cur := pset ds.cur ear (ds.ears.axis ear).position,
        prev := pset ds.prev ear now }
  else ds

/-- Timeout branch of the `_run_detection` loop body for one ear
(source: "Got no signal"). -/
def timeout_ear (S : Int) (tl tr : Option Int) (now : ℚ) (ear : Fin 2)
    (ds : DetState) : DetState :=
  if (ds.ears.axis ear).target = none then
    if now - pget ds.prev ear > 2/5 then
      -- at missing hole
      { ds with
        ears := ds.ears.setAxis ear
          { ds.ears.axis ear with
            target := some (gap_target tl tr ear
              ((- optInt (ds.ears.axis ear).position) % S)),
            position := some 0 } }
    else ds
  else ds

/-- Refresh the model's positions from the values observed under the condition
variable (they were mutated concurrently by `_encoder_cb`). -/
def observe (s : EarsState) (obs : Option Int × Option Int) : EarsState :=
  { s with ax0 := { s.ax0 with position := obs.1 },
           ax1 := { s.ax1 with position := obs.2 } }

/-- One full iteration of the `_run_detection` wait loop (both ears). -/
def detection_step (S : Int) (tl tr : Option Int) (ds : DetState)
    (ev : DetEvent) : DetState :=
  match ev with
  | DetEvent.signal now obs =>
      let ds0 := { ds with ears := observe ds.ears obs }
      signal_ear S tl tr now 1 (signal_ear S tl tr now 0 ds0)
  | DetEvent.timeout now =>
      timeout_ear S tl tr now 1 (timeout_ear S tl tr now 0 ds)

/-- Start phase of `EarsGPIO._run_detection` (before the wait loop): every ear
in unknown position gets `position = 0`, `target = None` and its motor started
forward (`FORWARD_INCREMENT = 1`). -/
def detection_start_ear (ear : Fin 2) (s : EarsState) : EarsState × List Gpio :=
  if (s.axis ear).position = none then
    let s1 := s.setAxis ear { s.axis ear with position := some 0, target := none }
    start_motor ear 1 s1
  else (s, [])

/-- `EarsGPIO._run_detection`: start phase, then the wait loop folded over the
iteration events; `t0` is the `time.time()` value taken as `start`.  Returns
the final ears state and the GPIO trace.  (The Python loop runs while a motor
is running; the event list is the sequence of loop iterations that occur.) -/
def run_detection (S : Int) (t0 : ℚ) (events : List DetEvent)
    (tl tr : Option Int) (s : EarsState) : EarsState × List Gpio :=
  let r0 := detection_start_ear 0 s
  let r1 := detection_start_ear 1 r0.1
  let ds0 : DetState := { ears := r1.1,
                          cur := (r1.1.ax0.position, r1.1.ax1.position),
                          prev := (t0, t0) }
  ((events.foldl (detection_step S tl tr) ds0).ears, r0.2 ++ r1.2)

/-- `EarsGPIO.detect_positions`: if either axis position is unknown, run a
detection with no caller targets; otherwise return the current pair with no
actuation. -/
def detect_positions (S : Int) (t0 : ℚ) (events : List DetEvent)
    (s : EarsState) : (EarsState × List Gpio) × (Option Int × Option Int) :=
  if s.ax0.position = none ∨ s.ax1.position = none then
    let r := run_detection S t0 events none none s
    (r, (r.1.ax0.position, r.1.ax1.position))
  else ((s, []), (s.ax0.position, s.ax1.position))

/-- Second half of `EarsGPIO.go` (after the ears are in a known state): store
the target, resolve the direction increment (`direction` truthy ⇒ backward),
then either normalize an extra-turn target, return as a no-op (no GPIO
write), or start the motor. -/
def go_seek (S : Int) (ear : Fin 2) (position : Int) (direction : Int)
    (s1 : EarsState) : EarsState × List Gpio :=
  let s2 := s1.setAxis ear { s1.axis ear with target := some position }
  let dir : Int := if direction ≠ 0 then -1 else 1
  if (s2.axis ear).position = some (position % S) then
    if position ≥ S then
      start_motor ear dir
        (s2.setAxis ear { s2.axis ear with target := some (position - S) })
    else if position < 0 then
      start_motor ear dir
        (s2.setAxis ear { s2.axis ear with target := some (position + S) })
    else
      (s2, [])  -- we already are at requested position
  else
    start_motor ear dir s2

/-- `EarsGPIO.go`: return the ears to a known state if needed (homing to
targets 0,0), then seek (`go_seek`); the GPIO trace is the detection's
actuation followed by the seek's. -/
def go (S : Int) (t0 : ℚ) (events : List DetEvent) (ear : Fin 2)
    (position : Int) (direction : Int) (s : EarsState) :
    EarsState × List Gpio :=
  if s.ax0.position = none ∨ s.ax1.position = none then
    let r1 := run_detection S t0 events (some 0) (some 0) s
    let r2 := go_seek S ear position direction r1.1
    (r2.1, r1.2 ++ r2.2)
  else go_seek S ear position direction s

/-- `EarsGPIO.move`: relative move, `go(motor, self.targets[motor] + delta,
direction)`.  `none` models the `TypeError` Python raises when the stored
target is `None`. -/
def move (S : Int) (t0 : ℚ) (events : List DetEvent) (motor : Fin 2)
    (delta : Int) (direction : Int) (s : EarsState) :
    Option (EarsState × List Gpio) :=
  match (s.axis motor).target with
  | none => none
  | some t => some (go S t0 events motor (t + delta) direction s)

/-! ### Audio engine (`nabd/sound_alsa.py`)

Byte strings are `List Nat`; a zero byte of `bytearray(n)` padding is the
literal `0`.  The `currently_playing` / `currently_recording` flags are set
concurrently by `stop_playing` / `stop_recording`; the workers observe them at
period granularity, modelled by a function `flag : Nat → Bool` giving the
value seen at the `i`-th check. -/

/-- Python slice `l[:r]` with an `Int` bound (negative counts from the end). -/
def pyTake (r : Int) (l : List Nat) : List Nat :=
  if 0 ≤ r then l.take r.toNat else l.take ((l.length : Int) + r).toNat

/-- Python slice `l[r:]` with an `Int` bound (negative counts from the end). -/
def pyDrop (r : Int) (l : List Nat) : List Nat :=
  if 0 ≤ r then l.drop r.toNat else l.drop ((l.length : Int) + r).toNat

/-- `periodsize = int(rate / 10)`: 1/10th of a second. -/
def periodsize (rate : Nat) : Nat := rate / 10

/-- WAV path: `chunksize = periodsize * channels * width`. -/
def wav_chunksize (rate channels width : Nat) : Nat :=
  periodsize rate * channels * width

/-- MP3 path: `target_chunk_size = periodsize * width * channels`. -/
def mp3_target_chunk_size (rate channels width : Nat) : Nat :=
  periodsize rate * width * channels

/-- The WAV loop of `SoundAlsa._play`: `data = f.readframes(periodsize)` reads
the next `chunksize` bytes of the stream `bs`; while data is non-empty and the
session is active, a short final read is padded with silence to `chunksize`
and the chunk is written.  Returns the list of device writes. -/
def playWavLoop (chunksize : Nat) (flag : Nat → Bool) (i : Nat)
    (bs : List Nat) : List (List Nat) :=
  if h : bs.take chunksize ≠ [] ∧ flag i = true then
    let data := bs.take chunksize
    let padded :=
      if data.length < chunksize then
        data ++ List.replicate (chunksize - data.length) 0
      else data
    padded :: playWavLoop chunksize flag (i + 1) (bs.drop chunksize)
  else []
termination_by bs.length
decreasing_by
  have hb : bs ≠ [] := by
    intro hbs; exact h.1 (by simp [hbs])
  have hc : chunksize ≠ 0 := by
    intro hcs; exact h.1 (by simp [hcs])
  simp only [List.length_drop]
  have h1 : 0 < bs.length := List.length_pos.mpr hb
  have h2 : 0 < chunksize := Nat.pos_of_ne_zero hc
  omega

/-- Device writes of a WAV playback session. -/
def playWav (chunksize : Nat) (flag : Nat → Bool) (bs : List Nat) :
    List (List Nat) :=
  playWavLoop chunksize flag 0 bs

/-- One frame of the MP3 loop of `SoundAlsa._play` (the accumulate-or-write
body, source lines 118-125): either accumulate the frame into `chunk` (no
write), or complete the chunk from the frame's head, write it, and keep the
tail as the new chunk.  Returns (writes, new chunk). -/
def mp3_step (target : Nat) (chunk frame : List Nat) :
    List (List Nat) × List Nat :=
  if chunk.length + frame.length < target then
    (([] : List (List Nat)), chunk ++ frame)
  else
    ([chunk ++ pyTake ((target : Int) - (chunk.length : Int)) frame],
     pyDrop ((target : Int) - (chunk.length : Int)) frame)

def playMp3Loop (target : Nat) (flag : Nat → Bool) :
    Nat → List Nat → List (List Nat) → List (List Nat) × List Nat
  | _, chunk, [] => ([], chunk)
  | i, chunk, frame :: rest =>
    if flag i = false then mp3_step target chunk frame
    else
      ((mp3_step target chunk frame).1 ++
        (playMp3Loop target flag (i + 1)
          (mp3_step target chunk frame).2 rest).1,
       (playMp3Loop target flag (i + 1)
          (mp3_step target chunk frame).2 rest).2)

/-- Device writes of an MP3 playback session: the frame loop followed by the
epilogue that pads a non-empty last chunk with silence and writes it.
(Python's `bytearray(remaining)` would raise `ValueError` for a negative
count; `Nat` subtraction clamps at 0 instead.) -/
def playMp3 (target : Nat) (flag : Nat → Bool) (frames : List (List Nat)) :
    List (List Nat) :=
  (playMp3Loop target flag 0 [] frames).1 ++
    (if 0 < (playMp3Loop target flag 0 [] frames).2.length then
      [(playMp3Loop target flag 0 [] frames).2 ++
        List.replicate
          (target - (playMp3Loop target flag 0 [] frames).2.length) 0]
    else [])

/-! #### Session bookkeeping (`start_playing_preloaded` / `start_recording`)

`self.future` holds the background worker of the live session.  Awaiting it
(`wait_until_done`) completes for a playback worker (the input stream is
finite, and its `finally` clears `currently_playing`), but a recording worker
loops until `currently_recording` is cleared — awaiting it while the flag is
still set never completes, which we model with `none`. -/

inductive AudioWorker where
  | player
  | recorder
deriving DecidableEq, Repr

structure SoundState where
  currently_playing : Bool
  currently_recording : Bool
  future : Option AudioWorker
deriving DecidableEq, Repr

/-- `SoundAlsa.wait_until_done`: await the stored future, then drop it.
`none` = the await never completes (recording worker with its flag still set). -/
def wait_until_done (s : SoundState) : Option SoundState :=
  match s.future with
  | none => some s
  | some AudioWorker.player =>
      some { s with currently_playing := false, future := none }
  | some AudioWorker.recorder =>
      if s.currently_recording then none
      else some { s with future := none }

/-- `SoundAlsa.stop_playing`: clear the playing flag if set, then
`wait_until_done`. -/
def stop_playing (s : SoundState) : Option SoundState :=
  let s1 := if s.currently_playing then { s with currently_playing := false } else s
  wait_until_done s1

/-- `SoundAlsa.stop_recording`: clear the recording flag if set, then
`wait_until_done`. -/
def stop_recording (s : SoundState) : Option SoundState :=
  let s1 := if s.currently_recording then { s with currently_recording := false } else s
  wait_until_done s1

/-- `SoundAlsa.start_playing_preloaded`: `await self.stop_playing()`, then set
the playing flag and spawn the playback worker. -/
def start_playing_preloaded (s : SoundState) : Option SoundState :=
  (stop_playing s).map fun s' =>
    { s' with currently_playing := true, future := some AudioWorker.player }

/-- `SoundAlsa.start_recording`: `await self.stop_playing()` (sic — the source
stops *playback*, not recording), then set the recording flag and spawn the
recording worker. -/
def start_recording (s : SoundState) : Option SoundState :=
  (stop_playing s).map fun s' =>
    { s' with currently_recording := true, future := some AudioWorker.recorder }

/-! #### Recording (`SoundAlsa._record`) -/

/-- Capture parameters of `SoundAlsa._record`: `setchannels(1)`,
`setrate(16000)`, `setformat(PCM_FORMAT_S16_LE)`, `setperiodsize(1600)`. -/
structure RecordConfig where
  channels : Nat
  rate : Nat
  formatS16LE : Bool
  periods : Nat
deriving DecidableEq, Repr

def record_config : RecordConfig :=
  { channels := 1, rate := 16000, formatS16LE := true, periods := 1600 }

/-- The `_record` loop.  `reads i` is the `(l, data)` pair returned by the
`i`-th `inp.read()`; `record_loop reads n` is the sequence of
`cb(data, finalize)` invocations of a session whose `currently_recording`
flag is observed `True` at iterations `0..n-1` and `False` at iteration `n`
(each iteration reads first, then checks the flag; `if l or finalize`
guards the callback, `l` being truthy iff non-zero). -/
def record_loop (reads : Nat → Int × List Nat) : Nat → List (List Nat × Bool)
  | 0 => [((reads 0).2, true)]
  | n + 1 =>
    (if (reads 0).1 ≠ 0 then [((reads 0).2, false)] else []) ++
      record_loop (fun i => reads (i + 1)) n

/-! ### Specification predicates and proof devices -/

/-- The position-range invariant of the spec's data model: each axis position
is unknown or an integer in `[0, STEPS)`. -/
def PosInv (S : Int) (s : EarsState) : Prop :=
  ∀ ear : Fin 2, ∀ p : Int, (s.axis ear).position = some p → 0 ≤ p ∧ p < S

/-- On reachable states, an axis in homing mode (`target = None`) was started
forward by `_run_detection`. -/
def HomingDirInv (s : EarsState) : Prop :=
  ∀ ear : Fin 2, (s.axis ear).target = none → (s.axis ear).direction = 1

/-- Positions observed by the detection loop are written by `_encoder_cb`,
which keeps them in `[0, STEPS)` (or unknown). -/
def ObsWF (S : Int) (obs : Option Int × Option Int) : Prop :=
  (∀ p : Int, obs.1 = some p → 0 ≤ p ∧ p < S) ∧
  (∀ p : Int, obs.2 = some p → 0 ≤ p ∧ p < S)

/-- Well-formed detection iteration events: all observed positions in range. -/
def EventsWF (S : Int) (events : List DetEvent) : Prop :=
  ∀ now obs, DetEvent.signal now obs ∈ events → ObsWF S obs

/-- Number of `± STEPS` normalizations needed to bring a multi-turn target
into `[0, STEPS)` (proof device). -/
def nNorm (S t : Int) : Nat :=
  if 0 ≤ t then (t / S).toNat else ((S - 1 - t) / S).toNat

/-- Number of encoder edges, in `1..STEPS`, from position `q` to the first
arrival at `r` when stepping by `d` modulo `S` (proof device). -/
def distTo (S d q r : Int) : Nat := (((d * (r - q) - 1) % S) + 1).toNat

/-- Edges remaining until a seeking axis stops (proof device). -/
def seekMeasure (S : Int) (a : AxisState) : Nat :=
  match a.position, a.target with
  | some q, some t => distTo S a.direction q (t % S) + S.toNat * nNorm S t
  | _, _ => 0

/-- Invariant of an axis seeking target residue `tm` in direction `d`. -/
def SeekInv (S d tm : Int) (a : AxisState) : Prop :=
  a.running = true ∧ a.direction = d ∧
    ∃ q t, a.position = some q ∧ 0 ≤ q ∧ q < S ∧ a.target = some t ∧ t % S = tm

/-- Outcome of a multi-turn seek started by `go(ear, t, dir)`, as claimed:
there is an edge count `N` such that the motor runs for the first `N - 1`
edges, each edge advances the position by `direction` modulo STEPS, the target
only ever changes by exactly one STEPS decrement/increment (keeping its
residue), and the edge number `N` stops the motor exactly at `t mod STEPS`. -/
def SeekOutcome (S : Int) (ear : Fin 2) (t d : Int) (s1 : EarsState) : Prop :=
  ∃ N : Nat, 0 < N ∧
    (∀ k : Nat, k < N → ∃ sk, cb_iter S ear k s1 = some sk ∧
      (sk.axis ear).running = true ∧
      ∃ qk tk, (sk.axis ear).position = some qk ∧
        (sk.axis ear).target = some tk ∧ tk % S = t % S ∧
        ∃ sk', cb_iter S ear (k + 1) s1 = some sk' ∧
          (sk'.axis ear).position = some ((qk + d) % S) ∧
          ((sk'.axis ear).target = some tk ∨
            (S ≤ tk ∧ (sk'.axis ear).target = some (tk - S)) ∨
            (tk < 0 ∧ (sk'.axis ear).target = some (tk + S)))) ∧
    ∃ sN, cb_iter S ear N s1 = some sN ∧ (sN.axis ear).running = false ∧
      (sN.axis ear).position = some (t % S)

/-- The spec's end-to-end scenario: both axes known, LEFT ear at position 5,
STEPS = 16. -/
def c1_scenario_state : EarsState :=
  { ax0 := { running := false, target := some 0, position := some 5, direction := 1 },
    ax1 := { running := false, target := some 0, position := some 0, direction := 1 } }

/-- A state with only the LEFT axis in unknown position (as after the user
moved that ear by hand), the RIGHT axis known at 3. -/
def c8_cex_state : EarsState :=
  { ax0 := { running := false, target := some 0, position := none, direction := 0 },
    ax1 := { running := false, target := some 0, position := some 3, direction := 0 } }

/-- A detection loop state with both ears homing (position reset to 0, target
`None`, motors running forward), fresh `current_positions` snapshot and
`previous_risings` at time 0. -/
def c2_cex_ds : DetState :=
  { ears :=
      { ax0 := { running := true, target := none, position := some 0, direction := 1 },
        ax1 := { running := true, target := none, position := some 0, direction := 1 } },
    cur := (some 0, some 0),
    prev := (0, 0) }

/-- A reachable mid-seek state (the 14th edge of the C1 scenario): LEFT ear
seeking the multi-turn target 20 with STEPS = 16, position 3. -/
def c9_cex_state : EarsState :=
  { ax0 := { running := true, target := some 20, position := some 3, direction := 1 },
    ax1 := { running := false, target := some 0, position := some 0, direction := 0 } }

/-- The state after one encoder edge on `c9_cex_state`: position 4 = 20 mod 16
reached, target normalized to 4, motor still running. -/
def c9_after_state : EarsState :=
  { ax0 := { running := true, target := some 4, position := some 4, direction := 1 },
    ax1 := { running := false, target := some 0, position := some 0, direction := 0 } }

/-- One revolution later: position 3 again, in-range target 4. -/
def c9_stop_state : EarsState :=
  { ax0 := { running := true, target := some 4, position := some 3, direction := 1 },
    ax1 := { running := false, target := some 0, position := some 0, direction := 0 } }

/-- The stop edge: position 4 = target, motor stopped. -/
def c9_stop_after : EarsState :=
  { ax0 := { running := false, target := some 4, position := some 4, direction := 0 },
    ax1 := { running := false, target := some 0, position := some 0, direction := 0 } }

/-- The concrete behavior the spec's scenario describes for
`goto(LEFT, 20, forward)` from position 5 with STEPS = 16: one forward motor
start; after 15 edges the position first reaches 4 = 20 mod 16, the target has
been normalized from 20 to 4, and the motor still runs; the motor runs through
edge 30 and is stopped exactly on edge 31, at position 4 again. -/
def C1Scenario : Prop :=
  (go 16 0 [] 0 20 0 c1_scenario_state).2 = startActs 0 1 ∧
  ((cb_iter 16 0 15 (go 16 0 [] 0 20 0 c1_scenario_state).1).map
    (fun s => ((s.axis 0).target, (s.axis 0).position, (s.axis 0).running))) =
    some (some 4, some 4, true) ∧
  ((cb_iter 16 0 31 (go 16 0 [] 0 20 0 c1_scenario_state).1).map
    (fun s => ((s.axis 0).target, (s.axis 0).position, (s.axis 0).running))) =
    some (some 4, some 4, false) ∧
  (∀ k, k < 31 → ((cb_iter 16 0 k (go 16 0 [] 0 20 0 c1_scenario_state).1).map
    (fun s => (s.axis 0).running)) = some true)

end Pynab

namespace Pynab

/-! ### State-access lemmas -/

theorem axis_setAxis_self (s : EarsState) (ear : Fin 2) (a : AxisState) :
    (s.setAxis ear a).axis ear = a := by
  unfold EarsState.setAxis EarsState.axis
  split <;> simp_all

theorem axis_setAxis_other (s : EarsState) (ear ear' : Fin 2) (a : AxisState)
    (h : ear ≠ ear') : (s.setAxis ear a).axis ear' = s.axis ear' := by
  unfold EarsState.setAxis EarsState.axis
  fin_cases ear <;> fin_cases ear' <;> simp_all

theorem setAxis_axis_self (s : EarsState) (ear : Fin 2) :
    s.setAxis ear (s.axis ear) = s := by
  unfold EarsState.setAxis EarsState.axis
  split <;> rfl

theorem setAxis_setAxis (s : EarsState) (ear : Fin 2) (a b : AxisState) :
    (s.setAxis ear a).setAxis ear b = s.setAxis ear b := by
  unfold EarsState.setAxis
  split <;> rfl

theorem cb_iter_eq_axis_iter (S : Int) (ear : Fin 2) :
    ∀ (n : Nat) (s : EarsState),
      cb_iter S ear n s = (axis_iter S n (s.axis ear)).map (s.setAxis ear) := by
  intro n
  induction n with
  | zero =>
    intro s
    simp [cb_iter, axis_iter, setAxis_axis_self]
  | succ n ih =>
    intro s
    show (match encoder_cb S ear s with
      | none => none
      | some (s', _) => cb_iter S ear n s') = _
    unfold encoder_cb
    cases hstep : axis_step S (s.axis ear) with
    | none => simp [axis_iter, hstep]
    | some pair =>
      obtain ⟨a', stopped⟩ := pair
      simp only [axis_iter, hstep]
      rw [ih (s.setAxis ear a'), axis_setAxis_self]
      cases axis_iter S n a' with
      | none => simp
      | some b => simp [setAxis_setAxis]

/-! ### Modular arithmetic helpers -/

theorem emod_pred {S x m : ℤ} (hS : 0 < S) (h : x % S = m) (h1 : 1 ≤ m) :
    (x - 1) % S = m - 1 := by
  have hmS : m < S := h ▸ Int.emod_lt_of_pos x hS
  have hone : (1 : ℤ) % S = 1 := Int.emod_eq_of_lt (by norm_num) (by omega)
  rw [Int.sub_emod, h, hone, Int.emod_eq_of_lt (by omega) (by omega)]

theorem emod_sub_S (S t : ℤ) : (t - S) % S = t % S := by
  have h := Int.add_mul_emod_self_left t S (-1)
  have h2 : t + S * (-1) = t - S := by ring
  rw [h2] at h
  exact h

theorem emod_add_S (S t : ℤ) : (t + S) % S = t % S := by
  have h := Int.add_mul_emod_self_left t S 1
  have h2 : t + S * 1 = t + S := by ring
  rw [h2] at h
  exact h

theorem neg_one_emod {S : ℤ} (hS : 0 < S) : (-1 : ℤ) % S = S - 1 := by
  have e : (S : ℤ) - 1 - S = -1 := by ring
  rw [← e, emod_sub_S, Int.emod_eq_of_lt (by omega) (by omega)]

theorem nNorm_eq_zero {S t : ℤ} (h0 : 0 ≤ t) (h1 : t < S) : nNorm S t = 0 := by
  unfold nNorm
  rw [if_pos h0, Int.ediv_eq_zero_of_lt h0 h1]
  rfl

theorem nNorm_ge_one_of_ge {S t : ℤ} (hS : 0 < S) (h : S ≤ t) :
    1 ≤ nNorm S t := by
  unfold nNorm
  rw [if_pos (le_trans (le_of_lt hS) h)]
  have h1 : (1 : ℤ) ≤ t / S := (Int.le_ediv_iff_mul_le hS).mpr (by omega)
  omega

theorem nNorm_sub {S t : ℤ} (hS : 0 < S) (h : S ≤ t) :
    nNorm S (t - S) = nNorm S t - 1 := by
  unfold nNorm
  rw [if_pos (by omega : (0:ℤ) ≤ t - S), if_pos (by omega : (0:ℤ) ≤ t)]
  have e : t - S = t + S * (-1) := by ring
  rw [e, Int.add_mul_ediv_left t (-1) (ne_of_gt hS)]
  have h1 : (1 : ℤ) ≤ t / S := (Int.le_ediv_iff_mul_le hS).mpr (by omega)
  omega

theorem nNorm_ge_one_of_neg {S t : ℤ} (hS : 0 < S) (h : t < 0) :
    1 ≤ nNorm S t := by
  unfold nNorm
  rw [if_neg (by omega)]
  have h1 : (1 : ℤ) ≤ (S - 1 - t) / S := (Int.le_ediv_iff_mul_le hS).mpr (by omega)
  omega

theorem nNorm_add {S t : ℤ} (hS : 0 < S) (h : t < 0) :
    nNorm S (t + S) = nNorm S t - 1 := by
  unfold nNorm
  by_cases h2 : 0 ≤ t + S
  · rw [if_pos h2, if_neg (by omega)]
    have q1 : (t + S) / S = 0 := Int.ediv_eq_zero_of_lt h2 (by omega)
    have e2 : S - 1 - t = (S - 1 - t - S) + S * 1 := by ring
    have q2 : (S - 1 - t) / S = 1 := by
      rw [e2, Int.add_mul_ediv_left _ 1 (ne_of_gt hS),
        Int.ediv_eq_zero_of_lt (by omega) (by omega)]
      norm_num
    rw [q1, q2]
    rfl
  · rw [if_neg h2, if_neg (by omega)]
    have e2 : S - 1 - (t + S) = (S - 1 - t) + S * (-1) := by ring
    rw [e2, Int.add_mul_ediv_left _ (-1) (ne_of_gt hS)]
    have h1 : (1 : ℤ) ≤ (S - 1 - t) / S := (Int.le_ediv_iff_mul_le hS).mpr (by omega)
    omega

theorem distTo_self {S d r : ℤ} (hS : 0 < S) (hd : d = 1 ∨ d = -1) :
    distTo S d r r = S.toNat := by
  unfold distTo
  have e : d * (r - r) - 1 = -1 := by rcases hd with h | h <;> subst h <;> ring
  rw [e, neg_one_emod hS]
  omega

/-- Core arithmetic of the seek measure: writing `m` for the distance residue
`(d * (r - q) - 1) % S`, the next position `(q + d) % S` hits `r` exactly when
`m = 0`, and otherwise the residue drops by one. -/
theorem seek_arith {S d q r : ℤ} (hS : 0 < S) (hd : d = 1 ∨ d = -1)
    (hr0 : 0 ≤ r) (hrS : r < S) :
    ((d * (r - q) - 1) % S = 0 ↔ (q + d) % S = r) ∧
    (1 ≤ (d * (r - q) - 1) % S →
      (d * (r - (q + d) % S) - 1) % S = (d * (r - q) - 1) % S - 1) := by
  have hrr : r % S = r := Int.emod_eq_of_lt hr0 hrS
  have hiff1 : (q + d) % S = r ↔ (q + d - r) % S = 0 := by
    constructor
    · intro h
      have h2 : (q + d) % S = r % S := by rw [h, hrr]
      exact Int.emod_eq_emod_iff_emod_sub_eq_zero.mp h2
    · intro h
      have h2 : (q + d) % S = r % S :=
        Int.emod_eq_emod_iff_emod_sub_eq_zero.mpr h
      rw [hrr] at h2
      exact h2
  have eB : d * (r - q) - 1 = -d * (q + d - r) := by
    rcases hd with h | h <;> subst h <;> ring
  have hiff2 : (d * (r - q) - 1) % S = 0 ↔ (q + d - r) % S = 0 := by
    rw [eB]
    constructor
    · intro h
      have hdvd : S ∣ -d * (q + d - r) := Int.dvd_of_emod_eq_zero h
      have hdd : d * d = 1 := by rcases hd with h1 | h1 <;> subst h1 <;> norm_num
      have hdvd2 : S ∣ -d * (-d * (q + d - r)) := Dvd.dvd.mul_left hdvd (-d)
      have e3 : -d * (-d * (q + d - r)) = q + d - r := by
        have e4 : -d * (-d * (q + d - r)) = d * d * (q + d - r) := by ring
        rw [e4, hdd, one_mul]
      rw [e3] at hdvd2
      exact Int.emod_eq_zero_of_dvd hdvd2
    · intro h
      have hdvd : S ∣ (q + d - r) := Int.dvd_of_emod_eq_zero h
      exact Int.emod_eq_zero_of_dvd (Dvd.dvd.mul_left hdvd (-d))
  refine ⟨hiff2.trans hiff1.symm, ?_⟩
  intro hm
  have hemod : (q + d) % S = q + d - S * ((q + d) / S) := by
    rw [Int.emod_def]
  have eC : d * (r - (q + d) % S) - 1 =
      (d * (r - q) - 2) + S * (d * ((q + d) / S)) := by
    rw [hemod]
    rcases hd with h | h <;> subst h <;> ring
  rw [eC, Int.add_mul_emod_self_left]
  have eD : d * (r - q) - 2 = (d * (r - q) - 1) - 1 := by ring
  rw [eD]
  exact emod_pred hS rfl hm

/-! ### The encoder-callback seek step -/

/-- One encoder edge of a seeking axis: the position advances by `direction`
modulo STEPS, the target is preserved or normalized by exactly one STEPS, and
the motor stops exactly when the remaining-edge measure was 1, landing on
`target mod STEPS`. -/
theorem seek_step {S d tm : ℤ} (hS : 0 < S) (hd : d = 1 ∨ d = -1)
    {a : AxisState} (h : SeekInv S d tm a) :
    ∃ a' st, axis_step S a = some (a', st) ∧
      (∃ q, a.position = some q ∧ a'.position = some ((q + d) % S)) ∧
      (∃ t, a.target = some t ∧
        (a'.target = some t ∨ (S ≤ t ∧ a'.target = some (t - S)) ∨
          (t < 0 ∧ a'.target = some (t + S)))) ∧
      (seekMeasure S a = 1 → a'.running = false ∧ a'.position = some tm) ∧
      (seekMeasure S a ≠ 1 →
        SeekInv S d tm a' ∧ seekMeasure S a' = seekMeasure S a - 1) := by
  obtain ⟨hrun, hdir, q, t, hq, hq0, hqS, ht, htm⟩ := h
  have hd0 : d ≠ 0 := by rcases hd with h1 | h1 <;> subst h1 <;> norm_num
  have hr0 : 0 ≤ t % S := Int.emod_nonneg t (ne_of_gt hS)
  have hrS : t % S < S := Int.emod_lt_of_pos t hS
  obtain ⟨hiff, hstepm⟩ := seek_arith (q := q) (r := t % S) hS hd hr0 hrS
  have hp0 : 0 ≤ (q + d) % S := Int.emod_nonneg _ (ne_of_gt hS)
  have hpS : (q + d) % S < S := Int.emod_lt_of_pos _ hS
  have hm0 : 0 ≤ (d * (t % S - q) - 1) % S := Int.emod_nonneg _ (ne_of_gt hS)
  have hS1 : 1 ≤ S.toNat := by omega
  have hbody : axis_step S a =
      (if (q + d) % S = t then
        some ({ a with position := some ((q + d) % S),
                       running := false, direction := 0 }, true)
      else if (q + d) % S = t % S then
        if t ≥ S then
          some ({ a with position := some ((q + d) % S),
                         target := some (t - S) }, false)
        else if t < 0 then
          some ({ a with position := some ((q + d) % S),
                         target := some (t + S) }, false)
        else some ({ a with position := some ((q + d) % S) }, false)
      else some ({ a with position := some ((q + d) % S) }, false)) := by
    unfold axis_step
    rw [hdir, hq, ht, if_neg hd0]
  have hms : seekMeasure S a = distTo S d q (t % S) + S.toNat * nNorm S t := by
    simp only [seekMeasure, hq, ht, hdir]
  by_cases hc1 : (q + d) % S = t
  · -- stop branch: position reached the (in-range) target
    have htS : 0 ≤ t ∧ t < S := ⟨hc1 ▸ hp0, hc1 ▸ hpS⟩
    have htt : t % S = t := Int.emod_eq_of_lt htS.1 htS.2
    have hmz : (d * (t % S - q) - 1) % S = 0 := by
      apply hiff.mpr
      rw [htt]
      exact hc1
    have hdist : distTo S d q (t % S) = 1 := by
      unfold distTo
      rw [hmz]
      rfl
    have hmeq : seekMeasure S a = 1 := by
      rw [hms, hdist, nNorm_eq_zero htS.1 htS.2]
      omega
    refine ⟨{ a with position := some ((q + d) % S), running := false, direction := 0 }, true,
      by rw [hbody, if_pos hc1], ⟨q, hq, rfl⟩, ⟨t, ht, Or.inl ht⟩,
      fun _ => ⟨rfl, ?_⟩, fun hne => absurd hmeq hne⟩
    show some ((q + d) % S) = some tm
    rw [hc1, ← htm, htt]
  · by_cases hc2 : (q + d) % S = t % S
    · -- normalization branch: modular target reached, extra turns remain
      have hmz : (d * (t % S - q) - 1) % S = 0 := hiff.mpr hc2
      have hdist : distTo S d q (t % S) = 1 := by
        unfold distTo
        rw [hmz]
        rfl
      have ht_out : ¬(0 ≤ t ∧ t < S) := by
        intro hin
        exact hc1 (by rw [Int.emod_eq_of_lt hin.1 hin.2] at hc2; exact hc2)
      by_cases hc3 : t ≥ S
      · obtain ⟨k, hk⟩ : ∃ k, nNorm S t = k + 1 :=
          ⟨nNorm S t - 1, by have := nNorm_ge_one_of_ge hS hc3; omega⟩
        have hms' : seekMeasure S
            ({ a with position := some ((q + d) % S), target := some (t - S) }) =
            S.toNat + S.toNat * k := by
          simp only [seekMeasure, hdir]
          rw [emod_sub_S, ← hc2]
          rw [distTo_self hS hd]
          have hnn : nNorm S (t - S) = k := by
            rw [nNorm_sub hS hc3, hk]
            omega
          rw [hnn]
        have hmul : S.toNat * (k + 1) = S.toNat * k + S.toNat := by ring
        refine ⟨{ a with position := some ((q + d) % S), target := some (t - S) }, false,
          by rw [hbody, if_neg hc1, if_pos hc2, if_pos hc3],
          ⟨q, hq, rfl⟩, ⟨t, ht, Or.inr (Or.inl ⟨hc3, rfl⟩)⟩,
          fun heq => ?_, fun _ => ⟨?_, ?_⟩⟩
        · rw [hms, hdist, hk] at heq
          omega
        · exact ⟨hrun, hdir, (q + d) % S, t - S, rfl, hp0, hpS, rfl,
            by rw [emod_sub_S]; exact htm⟩
        · rw [hms', hms, hdist, hk]
          omega
      · have hc4 : t < 0 := by omega
        obtain ⟨k, hk⟩ : ∃ k, nNorm S t = k + 1 :=
          ⟨nNorm S t - 1, by have := nNorm_ge_one_of_neg hS hc4; omega⟩
        have hms' : seekMeasure S
            ({ a with position := some ((q + d) % S), target := some (t + S) }) =
            S.toNat + S.toNat * k := by
          simp only [seekMeasure, hdir]
          rw [emod_add_S, ← hc2]
          rw [distTo_self hS hd]
          have hnn : nNorm S (t + S) = k := by
            rw [nNorm_add hS hc4, hk]
            omega
          rw [hnn]
        have hmul : S.toNat * (k + 1) = S.toNat * k + S.toNat := by ring
        refine ⟨{ a with position := some ((q + d) % S), target := some (t + S) }, false,
          by rw [hbody, if_neg hc1, if_pos hc2, if_neg hc3, if_pos hc4],
          ⟨q, hq, rfl⟩, ⟨t, ht, Or.inr (Or.inr ⟨hc4, rfl⟩)⟩,
          fun heq => ?_, fun _ => ⟨?_, ?_⟩⟩
        · rw [hms, hdist, hk] at heq
          omega
        · exact ⟨hrun, hdir, (q + d) % S, t + S, rfl, hp0, hpS, rfl,
            by rw [emod_add_S]; exact htm⟩
        · rw [hms', hms, hdist, hk]
          omega
    · -- plain advance: neither the exact target nor its residue was reached
      have hm1 : 1 ≤ (d * (t % S - q) - 1) % S := by
        rcases lt_or_eq_of_le hm0 with h1 | h1
        · omega
        · exact absurd (hiff.mp h1.symm) hc2
      have hdist' : distTo S d ((q + d) % S) (t % S) =
          ((d * (t % S - q) - 1) % S).toNat := by
        unfold distTo
        rw [hstepm hm1]
        omega
      have hms' : seekMeasure S ({ a with position := some ((q + d) % S) }) =
          ((d * (t % S - q) - 1) % S).toNat + S.toNat * nNorm S t := by
        simp only [seekMeasure, hdir, ht]
        rw [hdist']
      refine ⟨{ a with position := some ((q + d) % S) }, false,
        by rw [hbody, if_neg hc1, if_neg hc2],
        ⟨q, hq, rfl⟩, ⟨t, ht, Or.inl ht⟩, fun heq => ?_, fun _ => ⟨?_, ?_⟩⟩
      · rw [hms] at heq
        unfold distTo at heq
        omega
      · exact ⟨hrun, hdir, (q + d) % S, t, rfl, hp0, hpS, ht, htm⟩
      · rw [hms', hms]
        unfold distTo
        omega

theorem seekMeasure_pos {S d tm : ℤ} (hS : 0 < S) {a : AxisState}
    (h : SeekInv S d tm a) : 1 ≤ seekMeasure S a := by
  obtain ⟨_, hdir, q, t, hq, _, _, ht, _⟩ := h
  have hm0 : 0 ≤ (d * (t % S - q) - 1) % S := Int.emod_nonneg _ (ne_of_gt hS)
  simp only [seekMeasure, hq, ht, hdir]
  unfold distTo
  omega

/-- Running the encoder callback from a seeking state: the motor runs for
exactly `seekMeasure` edges and stops on the last one at `target mod STEPS`. -/
theorem seek_run {S d tm : ℤ} (hS : 0 < S) (hd : d = 1 ∨ d = -1) :
    ∀ (N : Nat) (a : AxisState), SeekInv S d tm a → seekMeasure S a = N →
      (∀ k, k < N → ∃ ak, axis_iter S k a = some ak ∧ SeekInv S d tm ak ∧
        seekMeasure S ak = N - k) ∧
      (∃ aN, axis_iter S N a = some aN ∧ aN.running = false ∧
        aN.position = some tm) := by
  intro N
  induction N with
  | zero =>
    intro a hInv hM
    have := seekMeasure_pos hS hInv
    omega
  | succ n ih =>
    intro a hInv hM
    obtain ⟨a', st, hstep, _, _, hstop, hcont⟩ := seek_step hS hd hInv
    have hiter : ∀ m, axis_iter S (m + 1) a = axis_iter S m a' := by
      intro m
      simp only [axis_iter, hstep]
    by_cases hn : n = 0
    · subst hn
      obtain ⟨hrF, hpos⟩ := hstop hM
      constructor
      · intro k hk
        have hk0 : k = 0 := by omega
        subst hk0
        exact ⟨a, rfl, hInv, by omega⟩
      · refine ⟨a', ?_, hrF, hpos⟩
        rw [hiter 0]
        rfl
    · have hne : seekMeasure S a ≠ 1 := by omega
      obtain ⟨hInv', hM'⟩ := hcont hne
      have hm' : seekMeasure S a' = n := by omega
      obtain ⟨hall, hfin⟩ := ih a' hInv' hm'
      constructor
      · intro k hk
        cases k with
        | zero => exact ⟨a, rfl, hInv, by omega⟩
        | succ j =>
          obtain ⟨aj, hj1, hj2, hj3⟩ := hall j (by omega)
          exact ⟨aj, by rw [hiter j]; exact hj1, hj2, by omega⟩
      · obtain ⟨aN, hN1, hN2, hN3⟩ := hfin
        exact ⟨aN, by rw [hiter n]; exact hN1, hN2, hN3⟩

/-! ### Characterizations of `go` -/

/-- `go` with both positions known and the current position differing from
`target mod STEPS`: store the target and start the motor. -/
theorem go_start {S : ℤ} {t0 : ℚ} {events : List DetEvent} {ear : Fin 2}
    {t dirArg : ℤ} {s : EarsState}
    (hknown : ¬(s.ax0.position = none ∨ s.ax1.position = none))
    (hcond : (s.axis ear).position ≠ some (t % S)) :
    go S t0 events ear t dirArg s =
      start_motor ear (if dirArg ≠ 0 then -1 else 1)
        (s.setAxis ear { s.axis ear with target := some t }) := by
  simp only [go, go_seek, start_motor]
  rw [if_neg hknown, axis_setAxis_self, if_neg ?hc]
  case hc =>
    show ({ s.axis ear with target := some t }).position ≠ some (t % S)
    exact hcond

/-- `go` with both positions known, already at `target mod STEPS`, and a
multi-turn target `t ≥ STEPS`: normalize once and start the motor. -/
theorem go_norm_ge {S : ℤ} {t0 : ℚ} {events : List DetEvent} {ear : Fin 2}
    {t dirArg : ℤ} {s : EarsState}
    (hknown : ¬(s.ax0.position = none ∨ s.ax1.position = none))
    (hcond : (s.axis ear).position = some (t % S)) (hge : t ≥ S) :
    go S t0 events ear t dirArg s =
      start_motor ear (if dirArg ≠ 0 then -1 else 1)
        (s.setAxis ear { s.axis ear with target := some (t - S) }) := by
  simp only [go, go_seek, start_motor]
  rw [if_neg hknown, axis_setAxis_self, if_pos ?hc, if_pos hge]
  case hc =>
    show ({ s.axis ear with target := some t }).position = some (t % S)
    exact hcond
  simp [setAxis_setAxis, axis_setAxis_self]

/-- `go` with both positions known, already at `target mod STEPS`, and a
multi-turn target `t < 0`: normalize once and start the motor. -/
theorem go_norm_lt {S : ℤ} {t0 : ℚ} {events : List DetEvent} {ear : Fin 2}
    {t dirArg : ℤ} {s : EarsState} (hSpos : 0 < S)
    (hknown : ¬(s.ax0.position = none ∨ s.ax1.position = none))
    (hcond : (s.axis ear).position = some (t % S)) (hlt : t < 0) :
    go S t0 events ear t dirArg s =
      start_motor ear (if dirArg ≠ 0 then -1 else 1)
        (s.setAxis ear { s.axis ear with target := some (t + S) }) := by
  simp only [go, go_seek, start_motor]
  rw [if_neg hknown, axis_setAxis_self, if_pos ?hc,
    if_neg (by omega : ¬t ≥ S), if_pos hlt]
  case hc =>
    show ({ s.axis ear with target := some t }).position = some (t % S)
    exact hcond
  simp [setAxis_setAxis, axis_setAxis_self]

/-- `go` with both positions known and already at an in-range target: the
request is a no-op apart from storing the target — no GPIO write, no motor
start. -/
theorem go_noop {S : ℤ} {t0 : ℚ} {events : List DetEvent} {ear : Fin 2}
    {t dirArg : ℤ} {s : EarsState}
    (hknown : ¬(s.ax0.position = none ∨ s.ax1.position = none))
    (hcond : (s.axis ear).position = some (t % S)) (h0 : 0 ≤ t) (hS : t < S) :
    go S t0 events ear t dirArg s =
      (s.setAxis ear { s.axis ear with target := some t }, []) := by
  simp only [go, go_seek]
  rw [if_neg hknown, axis_setAxis_self, if_pos ?hc,
    if_neg (by omega : ¬t ≥ S), if_neg (by omega : ¬t < 0)]
  case hc =>
    show ({ s.axis ear with target := some t }).position = some (t % S)
    exact hcond

/-! ### From axis-level iteration to ears-level iteration -/

theorem axis_iter_succ_right (S : ℤ) :
    ∀ (n : Nat) (a : AxisState), axis_iter S (n + 1) a =
      (axis_iter S n a).bind (fun b => (axis_step S b).map Prod.fst) := by
  intro n
  induction n with
  | zero =>
    intro a
    cases h : axis_step S a with
    | none => simp [axis_iter, h]
    | some p =>
      obtain ⟨a', st⟩ := p
      simp [axis_iter, h]
  | succ m ih =>
    intro a
    cases h : axis_step S a with
    | none => simp [axis_iter, h]
    | some p =>
      obtain ⟨a', st⟩ := p
      calc axis_iter S (m + 1 + 1) a = axis_iter S (m + 1) a' := by
            simp only [axis_iter, h]
        _ = (axis_iter S m a').bind (fun b => (axis_step S b).map Prod.fst) :=
            ih a'
        _ = (axis_iter S (m + 1) a).bind (fun b => (axis_step S b).map Prod.fst) := by
            simp only [axis_iter, h]

/-- A state whose axis satisfies the seek invariant realizes the claimed
multi-turn seek outcome. -/
theorem seekOutcome_of_inv {S d : ℤ} (hS : 0 < S) (hd1 : d = 1 ∨ d = -1)
    (ear : Fin 2) (t : ℤ) (s1 : EarsState)
    (hInv : SeekInv S d (t % S) (s1.axis ear)) : SeekOutcome S ear t d s1 := by
  obtain ⟨hall, hfin⟩ :=
    seek_run hS hd1 (seekMeasure S (s1.axis ear)) (s1.axis ear) hInv rfl
  refine ⟨seekMeasure S (s1.axis ear), seekMeasure_pos hS hInv, ?_, ?_⟩
  · intro k hk
    obtain ⟨ak, hk1, hk2, hk3⟩ := hall k hk
    obtain ⟨a', st, hstep, hposrel, htarrel, _, _⟩ := seek_step hS hd1 hk2
    obtain ⟨hrun, hdir, q, tt, hq, hq0, hqS, ht, htm⟩ := hk2
    obtain ⟨q2, hq2, hq2'⟩ := hposrel
    obtain ⟨t2, ht2, ht2'⟩ := htarrel
    have hqq : q2 = q := by rw [hq] at hq2; exact (Option.some_inj.mp hq2).symm
    have htt : t2 = tt := by rw [ht] at ht2; exact (Option.some_inj.mp ht2).symm
    subst hqq
    subst htt
    have hsucc : axis_iter S (k + 1) (s1.axis ear) = some a' := by
      rw [axis_iter_succ_right, hk1]
      simp [hstep]
    refine ⟨s1.setAxis ear ak, ?_, ?_, q2, t2, ?_, ?_, ?_, ?_⟩
    · rw [cb_iter_eq_axis_iter, hk1]
      rfl
    · rw [axis_setAxis_self]
      exact hrun
    · rw [axis_setAxis_self]
      exact hq
    · rw [axis_setAxis_self]
      exact ht
    · exact htm
    · refine ⟨s1.setAxis ear a', ?_, ?_, ?_⟩
      · rw [cb_iter_eq_axis_iter, hsucc]
        rfl
      · rw [axis_setAxis_self]
        exact hq2'
      · rw [axis_setAxis_self]
        exact ht2'
  · obtain ⟨aN, hN1, hN2, hN3⟩ := hfin
    refine ⟨s1.setAxis ear aN, ?_, ?_, ?_⟩
    · rw [cb_iter_eq_axis_iter, hN1]
      rfl
    · rw [axis_setAxis_self]
      exact hN2
    · rw [axis_setAxis_self]
      exact hN3

/-! ### Claim C1 -/

/-- C1 — Multi-turn seek: for an axis at a known position `p0 ∈ [0, STEPS)`
and any target `t` (possibly encoding extra turns), unless the request is the
in-range no-op, `go` starts the motor exactly once (the single H-bridge write
pair of `_start_motor`); each subsequent encoder edge advances the position by
`direction` modulo STEPS; the target only ever changes by exactly one STEPS
increment/decrement while the motor keeps running; and the motor is stopped
exactly on the edge where the position equals the normalized target, i.e.
`t mod STEPS`.  In particular (`C1Scenario`) `goto(LEFT, 20, forward)` from
position 5 with STEPS = 16 starts the motor once, normalizes the target from
20 to 4 on the 15th edge (first arrival at 4) with the motor still running,
and stops the motor exactly on the 31st edge (second arrival at 4). -/
theorem C1_multi_turn_seek {S : ℤ} (hS : 0 < S) (t0 : ℚ)
    (events : List DetEvent) (ear : Fin 2) (t dirArg d : ℤ) (s : EarsState)
    (q0 q1 p0 : ℤ) (hd : d = if dirArg ≠ 0 then -1 else 1)
    (h0 : s.ax0.position = some q0) (h1 : s.ax1.position = some q1)
    (hp : (s.axis ear).position = some p0) (hp0 : 0 ≤ p0) (hpS : p0 < S)
    (hne : ¬(p0 = t % S ∧ 0 ≤ t ∧ t < S)) :
    (go S t0 events ear t dirArg s).2 = startActs ear d ∧
    ((go S t0 events ear t dirArg s).1.axis ear).running = true ∧
    SeekOutcome S ear t d (go S t0 events ear t dirArg s).1 ∧
    C1Scenario := by
  have hd1 : d = 1 ∨ d = -1 := by
    rw [hd]
    split <;> simp
  have hknown : ¬(s.ax0.position = none ∨ s.ax1.position = none) := by
    rw [h0, h1]
    simp
  have hscen : C1Scenario := ⟨by decide, by decide, by decide, by decide⟩
  by_cases hA : p0 = t % S
  · -- already at the modular target: the no-op case is excluded, so the
    -- target encodes extra turns and go normalizes once before starting
    have hcond : (s.axis ear).position = some (t % S) := by rw [hp, hA]
    have htout : S ≤ t ∨ t < 0 := by
      rcases lt_or_ge t S with h2 | h2
      · rcases lt_or_ge t 0 with h3 | h3
        · exact Or.inr h3
        · exact absurd ⟨hA, h3, h2⟩ hne
      · exact Or.inl h2
    rcases htout with hge | hlt
    · rw [@go_norm_ge S t0 events ear t dirArg s hknown hcond hge, ← hd]
      refine ⟨rfl, ?_, ?_, hscen⟩
      · simp only [start_motor]
        rw [axis_setAxis_self]
      · apply seekOutcome_of_inv hS hd1
        simp only [start_motor]
        rw [axis_setAxis_self, axis_setAxis_self]
        exact ⟨rfl, rfl, p0, t - S, hp, hp0, hpS, rfl, emod_sub_S S t⟩
    · rw [@go_norm_lt S t0 events ear t dirArg s hS hknown hcond hlt, ← hd]
      refine ⟨rfl, ?_, ?_, hscen⟩
      · simp only [start_motor]
        rw [axis_setAxis_self]
      · apply seekOutcome_of_inv hS hd1
        simp only [start_motor]
        rw [axis_setAxis_self, axis_setAxis_self]
        exact ⟨rfl, rfl, p0, t + S, hp, hp0, hpS, rfl, emod_add_S S t⟩
  · have hcond : (s.axis ear).position ≠ some (t % S) := by
      rw [hp]
      intro hcc
      exact hA (Option.some_inj.mp hcc)
    rw [@go_start S t0 events ear t dirArg s hknown hcond, ← hd]
    refine ⟨rfl, ?_, ?_, hscen⟩
    · simp only [start_motor]
      rw [axis_setAxis_self]
    · apply seekOutcome_of_inv hS hd1
      simp only [start_motor]
      rw [axis_setAxis_self, axis_setAxis_self]
      exact ⟨rfl, rfl, p0, t, hp, hp0, hpS, rfl, rfl⟩

/-- Witness for C1 at the spec's own scenario input: STEPS = 16, LEFT ear,
known positions (5, 0), target 20, forward. -/
theorem C1_multi_turn_seek_witness :
    (go 16 0 [] 0 20 0 c1_scenario_state).2 = startActs 0 1 ∧
    ((go 16 0 [] 0 20 0 c1_scenario_state).1.axis 0).running = true ∧
    SeekOutcome 16 0 20 1 (go 16 0 [] 0 20 0 c1_scenario_state).1 ∧
    C1Scenario :=
  C1_multi_turn_seek (by decide) 0 [] 0 20 0 1 c1_scenario_state 5 0 5
    (by decide) rfl rfl rfl (by decide) (by decide) (by decide)

/-! ### Claim C7 -/

/-- C7 — `goto` idempotence: with both positions known and the axis already at
the requested in-range position `p`, `go(ear, p, dir)` issues no GPIO write,
does not start the motor (the running flag is untouched), and only stores the
target: the request is a no-op. -/
theorem C7_goto_idempotent {S : ℤ} (t0 : ℚ) (events : List DetEvent)
    (ear : Fin 2) (p dirArg : ℤ) (s : EarsState) (q0 q1 : ℤ)
    (h0 : s.ax0.position = some q0) (h1 : s.ax1.position = some q1)
    (hp : (s.axis ear).position = some p) (hp0 : 0 ≤ p) (hpS : p < S) :
    (go S t0 events ear p dirArg s).2 = [] ∧
    ((go S t0 events ear p dirArg s).1.axis ear).running = (s.axis ear).running ∧
    (go S t0 events ear p dirArg s).1 =
      s.setAxis ear { s.axis ear with target := some p } := by
  have hknown : ¬(s.ax0.position = none ∨ s.ax1.position = none) := by
    rw [h0, h1]
    simp
  have hcond : (s.axis ear).position = some (p % S) := by
    rw [Int.emod_eq_of_lt hp0 hpS]
    exact hp
  rw [go_noop hknown hcond hp0 hpS]
  refine ⟨rfl, ?_, rfl⟩
  rw [axis_setAxis_self]

/-- Witness for C7: STEPS = 16, LEFT ear already at position 5, `goto(0, 5, forward)`. -/
theorem C7_goto_idempotent_witness :
    (go 16 0 [] 0 5 0 c1_scenario_state).2 = [] ∧
    ((go 16 0 [] 0 5 0 c1_scenario_state).1.axis 0).running =
      (c1_scenario_state.axis 0).running ∧
    (go 16 0 [] 0 5 0 c1_scenario_state).1 =
      c1_scenario_state.setAxis 0
        { c1_scenario_state.axis 0 with target := some 5 } :=
  C7_goto_idempotent 0 [] 0 5 0 c1_scenario_state 5 0 rfl rfl rfl
    (by decide) (by decide)

/-! ### Claim C10 -/

/-- C10 — Relative move: `move(motor, delta, direction)` is exactly
`go(motor, t + delta, direction)` where `t` is the axis's stored target at
call time (the offset applies to the last target, not the current position). -/
theorem C10_move_is_go_target_plus_delta {S : ℤ} (t0 : ℚ)
    (events : List DetEvent) (motor : Fin 2) (delta dirArg t : ℤ)
    (s : EarsState) (ht : (s.axis motor).target = some t) :
    move S t0 events motor delta dirArg s =
      some (go S t0 events motor (t + delta) dirArg s) := by
  unfold move
  rw [ht]

/-- Witness for C10: stored target 0, delta 3 — `move` equals `go` to 0 + 3. -/
theorem C10_move_is_go_target_plus_delta_witness :
    move 16 0 [] 0 3 0 c1_scenario_state =
      some (go 16 0 [] 0 (0 + 3) 0 c1_scenario_state) :=
  C10_move_is_go_target_plus_delta 0 [] 0 3 0 0 c1_scenario_state rfl

/-! ### Position-range machinery (claim C9) -/

theorem axis_step_body_none {S : ℤ} {a : AxisState} {p : ℤ}
    (hdir : a.direction ≠ 0) (hpos : a.position = some p)
    (htar : a.target = none) :
    axis_step S a = some ({ a with position := some ((p + a.direction) % S) },
      false) := by
  unfold axis_step
  rw [if_neg hdir, hpos, htar]

theorem axis_step_body_some {S : ℤ} {a : AxisState} {p t : ℤ}
    (hdir : a.direction ≠ 0) (hpos : a.position = some p)
    (htar : a.target = some t) :
    axis_step S a =
      (if (p + a.direction) % S = t then
        some ({ a with position := some ((p + a.direction) % S),
                       running := false, direction := 0 }, true)
      else if (p + a.direction) % S = t % S then
        if t ≥ S then
          some ({ a with position := some ((p + a.direction) % S),
                         target := some (t - S) }, false)
        else if t < 0 then
          some ({ a with position := some ((p + a.direction) % S),
                         target := some (t + S) }, false)
        else some ({ a with position := some ((p + a.direction) % S) }, false)
      else some ({ a with position := some ((p + a.direction) % S) }, false)) := by
  unfold axis_step
  rw [if_neg hdir, hpos, htar]

/-- Any successful encoder-callback step leaves the stepped axis position
unknown or in `[0, STEPS)`. -/
theorem axis_step_pos_range {S : ℤ} (hS : 0 < S) {a a' : AxisState} {st : Bool}
    (h : axis_step S a = some (a', st)) :
    a'.position = none ∨ ∃ q, a'.position = some q ∧ 0 ≤ q ∧ q < S := by
  by_cases hdir : a.direction = 0
  · unfold axis_step at h
    rw [if_pos hdir] at h
    cases h
    left
    rfl
  · cases hpos : a.position with
    | none =>
      unfold axis_step at h
      rw [if_neg hdir, hpos] at h
      cases h
    | some p =>
      right
      refine ⟨(p + a.direction) % S, ?_, Int.emod_nonneg _ (ne_of_gt hS),
        Int.emod_lt_of_pos _ hS⟩
      cases htar : a.target with
      | none =>
        rw [axis_step_body_none hdir hpos htar] at h
        cases h
        rfl
      | some t =>
        rw [axis_step_body_some hdir hpos htar] at h
        by_cases h1 : (p + a.direction) % S = t
        · rw [if_pos h1] at h
          cases h
          rfl
        · rw [if_neg h1] at h
          by_cases h2 : (p + a.direction) % S = t % S
          · rw [if_pos h2] at h
            by_cases h3 : t ≥ S
            · rw [if_pos h3] at h
              cases h
              rfl
            · rw [if_neg h3] at h
              by_cases h4 : t < 0
              · rw [if_pos h4] at h
                cases h
                rfl
              · rw [if_neg h4] at h
                cases h
                rfl
          · rw [if_neg h2] at h
            cases h
            rfl

/-- A stop decided by the encoder callback happens exactly at the stored
target, which at that moment is its own residue modulo STEPS. -/
theorem axis_step_stop_exact {S : ℤ} {a a' : AxisState} {st : Bool}
    (hrun : a.running = true) (h : axis_step S a = some (a', st))
    (hstop : a'.running = false) :
    ∃ t, a.target = some t ∧ a'.position = some t ∧ t % S = t := by
  by_cases hdir : a.direction = 0
  · unfold axis_step at h
    rw [if_pos hdir] at h
    cases h
    have : a.running = false := hstop
    rw [hrun] at this
    cases this
  · cases hpos : a.position with
    | none =>
      unfold axis_step at h
      rw [if_neg hdir, hpos] at h
      cases h
    | some p =>
      cases htar : a.target with
      | none =>
        rw [axis_step_body_none hdir hpos htar] at h
        cases h
        have : a.running = false := hstop
        rw [hrun] at this
        cases this
      | some t =>
        rw [axis_step_body_some hdir hpos htar] at h
        by_cases h1 : (p + a.direction) % S = t
        · rw [if_pos h1] at h
          cases h
          refine ⟨t, rfl, by rw [h1], ?_⟩
          rw [← h1, Int.emod_emod_of_dvd _ dvd_rfl]
        · rw [if_neg h1] at h
          by_cases h2 : (p + a.direction) % S = t % S
          · rw [if_pos h2] at h
            by_cases h3 : t ≥ S
            · rw [if_pos h3] at h
              cases h
              have : a.running = false := hstop
              rw [hrun] at this
              cases this
            · rw [if_neg h3] at h
              by_cases h4 : t < 0
              · rw [if_pos h4] at h
                cases h
                have : a.running = false := hstop
                rw [hrun] at this
                cases this
              · rw [if_neg h4] at h
                cases h
                have : a.running = false := hstop
                rw [hrun] at this
                cases this
          · rw [if_neg h2] at h
            cases h
            have : a.running = false := hstop
            rw [hrun] at this
            cases this

/-- `signal_ear` leaves the processed ear's direction and running flag alone;
its position is unchanged or reset to the ear's direction increment (only in
homing mode); its target can only change away from `none`. -/
theorem signal_ear_fields (S : ℤ) (tl tr : Option Int) (now : ℚ) (ear : Fin 2)
    (ds : DetState) :
    ((signal_ear S tl tr now ear ds).ears.axis ear).direction =
      (ds.ears.axis ear).direction ∧
    ((signal_ear S tl tr now ear ds).ears.axis ear).running =
      (ds.ears.axis ear).running ∧
    (((signal_ear S tl tr now ear ds).ears.axis ear).position =
        (ds.ears.axis ear).position ∨
      ((ds.ears.axis ear).target = none ∧
        ((signal_ear S tl tr now ear ds).ears.axis ear).position =
          some (ds.ears.axis ear).direction)) ∧
    (((signal_ear S tl tr now ear ds).ears.axis ear).target = none →
      (ds.ears.axis ear).target = none) := by
  unfold signal_ear
  split_ifs with h1 h2
  · simp only [axis_setAxis_self]
    exact ⟨trivial, trivial, Or.inr ⟨h1.1, trivial⟩, fun _ => h1.1⟩
  · exact ⟨rfl, rfl, Or.inl rfl, fun h => h⟩
  · exact ⟨rfl, rfl, Or.inl rfl, fun h => h⟩

/-- `signal_ear` does not touch the other ear. -/
theorem signal_ear_other (S : ℤ) (tl tr : Option Int) (now : ℚ)
    (ear e : Fin 2) (ds : DetState) (hne : ear ≠ e) :
    (signal_ear S tl tr now ear ds).ears.axis e = ds.ears.axis e := by
  unfold signal_ear
  split_ifs with h1 h2
  · exact axis_setAxis_other _ _ _ _ hne
  · rfl
  · rfl

/-- `timeout_ear` leaves direction and running alone; its position is
unchanged or reset to 0 (only in homing mode); its target can only change
away from `none`. -/
theorem timeout_ear_fields (S : ℤ) (tl tr : Option Int) (now : ℚ) (ear : Fin 2)
    (ds : DetState) :
    ((timeout_ear S tl tr now ear ds).ears.axis ear).direction =
      (ds.ears.axis ear).direction ∧
    ((timeout_ear S tl tr now ear ds).ears.axis ear).running =
      (ds.ears.axis ear).running ∧
    (((timeout_ear S tl tr now ear ds).ears.axis ear).position =
        (ds.ears.axis ear).position ∨
      ((timeout_ear S tl tr now ear ds).ears.axis ear).position = some 0) ∧
    (((timeout_ear S tl tr now ear ds).ears.axis ear).target = none →
      (ds.ears.axis ear).target = none) := by
  unfold timeout_ear
  split_ifs with h1 h2
  · simp only [axis_setAxis_self]
    exact ⟨trivial, trivial, Or.inr trivial, fun _ => h1⟩
  · exact ⟨rfl, rfl, Or.inl rfl, fun h => h⟩
  · exact ⟨rfl, rfl, Or.inl rfl, fun h => h⟩

/-- `timeout_ear` does not touch the other ear. -/
theorem timeout_ear_other (S : ℤ) (tl tr : Option Int) (now : ℚ)
    (ear e : Fin 2) (ds : DetState) (hne : ear ≠ e) :
    (timeout_ear S tl tr now ear ds).ears.axis e = ds.ears.axis e := by
  unfold timeout_ear
  split_ifs with h1 h2
  · exact axis_setAxis_other _ _ _ _ hne
  · rfl
  · rfl

/-- `observe` replaces positions by the observed ones and keeps every other
field. -/
theorem observe_fields (s : EarsState) (obs : Option Int × Option Int)
    (e : Fin 2) :
    ((observe s obs).axis e).position = pget obs e ∧
    ((observe s obs).axis e).direction = (s.axis e).direction ∧
    ((observe s obs).axis e).running = (s.axis e).running ∧
    ((observe s obs).axis e).target = (s.axis e).target := by
  unfold observe EarsState.axis pget
  fin_cases e <;> simp

theorem observe_inv {S : ℤ} {s : EarsState} {obs : Option Int × Option Int}
    (hH : HomingDirInv s) (hw : ObsWF S obs) :
    PosInv S (observe s obs) ∧ HomingDirInv (observe s obs) := by
  constructor
  · intro e p hp
    obtain ⟨hpos, _, _, _⟩ := observe_fields s obs e
    rw [hpos] at hp
    fin_cases e
    · exact hw.1 p (by simpa [pget] using hp)
    · exact hw.2 p (by simpa [pget] using hp)
  · intro e ht
    obtain ⟨_, hdir, _, htg⟩ := observe_fields s obs e
    rw [htg] at ht
    rw [hdir]
    exact hH e ht

theorem signal_ear_inv {S : ℤ} (hS1 : 1 < S) (tl tr : Option Int) (now : ℚ)
    (ear : Fin 2) {ds : DetState} (hP : PosInv S ds.ears)
    (hH : HomingDirInv ds.ears) :
    PosInv S (signal_ear S tl tr now ear ds).ears ∧
    HomingDirInv (signal_ear S tl tr now ear ds).ears := by
  constructor
  · intro e p hp
    by_cases he : ear = e
    · subst he
      obtain ⟨_, _, hposd, _⟩ := signal_ear_fields S tl tr now ear ds
      rcases hposd with heq | ⟨htn, heq⟩
      · rw [heq] at hp
        exact hP ear p hp
      · rw [heq, hH ear htn] at hp
        cases hp
        omega
    · rw [signal_ear_other S tl tr now ear e ds he] at hp
      exact hP e p hp
  · intro e ht
    by_cases he : ear = e
    · subst he
      obtain ⟨hdir, _, _, himp⟩ := signal_ear_fields S tl tr now ear ds
      rw [hdir]
      exact hH ear (himp ht)
    · rw [signal_ear_other S tl tr now ear e ds he] at ht ⊢
      exact hH e ht

theorem timeout_ear_inv {S : ℤ} (hS1 : 1 < S) (tl tr : Option Int) (now : ℚ)
    (ear : Fin 2) {ds : DetState} (hP : PosInv S ds.ears)
    (hH : HomingDirInv ds.ears) :
    PosInv S (timeout_ear S tl tr now ear ds).ears ∧
    HomingDirInv (timeout_ear S tl tr now ear ds).ears := by
  constructor
  · intro e p hp
    by_cases he : ear = e
    · subst he
      obtain ⟨_, _, hposd, _⟩ := timeout_ear_fields S tl tr now ear ds
      rcases hposd with heq | heq
      · rw [heq] at hp
        exact hP ear p hp
      · rw [heq] at hp
        cases hp
        omega
    · rw [timeout_ear_other S tl tr now ear e ds he] at hp
      exact hP e p hp
  · intro e ht
    by_cases he : ear = e
    · subst he
      obtain ⟨hdir, _, _, himp⟩ := timeout_ear_fields S tl tr now ear ds
      rw [hdir]
      exact hH ear (himp ht)
    · rw [timeout_ear_other S tl tr now ear e ds he] at ht ⊢
      exact hH e ht

theorem detection_step_inv {S : ℤ} (hS1 : 1 < S) (tl tr : Option Int)
    {ds : DetState} (ev : DetEvent) (hP : PosInv S ds.ears)
    (hH : HomingDirInv ds.ears)
    (hobs : ∀ now obs, ev = DetEvent.signal now obs → ObsWF S obs) :
    PosInv S (detection_step S tl tr ds ev).ears ∧
    HomingDirInv (detection_step S tl tr ds ev).ears := by
  cases ev with
  | signal now obs =>
    have hw : ObsWF S obs := hobs now obs rfl
    obtain ⟨hP0, hH0⟩ := observe_inv (s := ds.ears) hH hw
    obtain ⟨hP1, hH1⟩ :=
      @signal_ear_inv S hS1 tl tr now 0 { ds with ears := observe ds.ears obs }
        hP0 hH0
    exact signal_ear_inv hS1 tl tr now 1 hP1 hH1
  | timeout now =>
    obtain ⟨hP1, hH1⟩ := timeout_ear_inv hS1 tl tr now 0 hP hH
    exact timeout_ear_inv hS1 tl tr now 1 hP1 hH1

theorem detection_fold_inv {S : ℤ} (hS1 : 1 < S) (tl tr : Option Int) :
    ∀ (events : List DetEvent) (ds : DetState), PosInv S ds.ears →
      HomingDirInv ds.ears → EventsWF S events →
      PosInv S (events.foldl (detection_step S tl tr) ds).ears ∧
      HomingDirInv (events.foldl (detection_step S tl tr) ds).ears := by
  intro events
  induction events with
  | nil => exact fun ds hP hH _ => ⟨hP, hH⟩
  | cons ev rest ih =>
    intro ds hP hH hwf
    have hev : ∀ now obs, ev = DetEvent.signal now obs → ObsWF S obs := by
      intro now obs he
      exact hwf now obs (by rw [← he]; exact List.mem_cons_self _ _)
    obtain ⟨hP', hH'⟩ := detection_step_inv hS1 tl tr ev hP hH hev
    have hwf' : EventsWF S rest :=
      fun now obs hm => hwf now obs (List.mem_cons_of_mem _ hm)
    exact ih (detection_step S tl tr ds ev) hP' hH' hwf'

theorem detection_start_ear_inv {S : ℤ} (hS : 0 < S) (ear : Fin 2)
    {s : EarsState} (hP : PosInv S s) (hH : HomingDirInv s) :
    PosInv S (detection_start_ear ear s).1 ∧
    HomingDirInv (detection_start_ear ear s).1 := by
  unfold detection_start_ear
  split_ifs with hc
  · simp only [start_motor]
    constructor
    · intro e p hp
      by_cases he : ear = e
      · subst he
        rw [axis_setAxis_self, axis_setAxis_self] at hp
        have hp' : some (0 : ℤ) = some p := hp
        cases hp'
        omega
      · rw [axis_setAxis_other _ _ _ _ he, axis_setAxis_other _ _ _ _ he] at hp
        exact hP e p hp
    · intro e ht
      by_cases he : ear = e
      · subst he
        rw [axis_setAxis_self]
      · rw [axis_setAxis_other _ _ _ _ he, axis_setAxis_other _ _ _ _ he] at ht ⊢
        exact hH e ht
  · exact ⟨hP, hH⟩

theorem run_detection_inv {S : ℤ} (hS1 : 1 < S) (t0 : ℚ)
    (events : List DetEvent) (tl tr : Option Int) {s : EarsState}
    (hP : PosInv S s) (hH : HomingDirInv s) (hwf : EventsWF S events) :
    PosInv S (run_detection S t0 events tl tr s).1 ∧
    HomingDirInv (run_detection S t0 events tl tr s).1 := by
  have h0 := detection_start_ear_inv (by omega : (0:ℤ) < S) 0 hP hH
  cases hsd0 : detection_start_ear 0 s with
  | mk s1 acts0 =>
    rw [hsd0] at h0
    have h1 := detection_start_ear_inv (by omega : (0:ℤ) < S) 1 h0.1 h0.2
    cases hsd1 : detection_start_ear 1 s1 with
    | mk s2 acts1 =>
      rw [hsd1] at h1
      unfold run_detection
      simp only [hsd0, hsd1]
      exact detection_fold_inv hS1 tl tr events
        { ears := s2, cur := (s2.ax0.position, s2.ax1.position),
          prev := (t0, t0) } h1.1 h1.2 hwf

theorem positions_setAxis_same (s : EarsState) (ear : Fin 2) (a : AxisState)
    (ha : a.position = (s.axis ear).position) (e : Fin 2) :
    ((s.setAxis ear a).axis e).position = (s.axis e).position := by
  by_cases he : ear = e
  · subst he
    rw [axis_setAxis_self, ha]
  · rw [axis_setAxis_other _ _ _ _ he]

/-- `go_seek` never changes a position: it only stores targets and drives the
motor flags. -/
theorem go_seek_positions (S : ℤ) (ear : Fin 2) (t dirArg : ℤ)
    (s' : EarsState) (e : Fin 2) :
    ((go_seek S ear t dirArg s').1.axis e).position = (s'.axis e).position := by
  by_cases he : ear = e
  · subst he
    unfold go_seek
    simp only [start_motor]
    split_ifs <;> simp only [axis_setAxis_self]
  · unfold go_seek
    simp only [start_motor]
    split_ifs <;> simp only [axis_setAxis_other _ _ _ _ he]

theorem posInv_setAxis_same_pos {S : ℤ} {s : EarsState} (hP : PosInv S s)
    (ear : Fin 2) (a : AxisState) (ha : a.position = (s.axis ear).position) :
    PosInv S (s.setAxis ear a) := by
  intro e p hp
  by_cases he : ear = e
  · subst he
    rw [axis_setAxis_self, ha] at hp
    exact hP ear p hp
  · rw [axis_setAxis_other _ _ _ _ he] at hp
    exact hP e p hp

theorem homingDirInv_setAxis {s : EarsState} (hH : HomingDirInv s)
    (ear : Fin 2) (a : AxisState)
    (ha : a.target = none → a.direction = 1) : HomingDirInv (s.setAxis ear a) := by
  intro e ht
  by_cases he : ear = e
  · subst he
    rw [axis_setAxis_self] at ht ⊢
    exact ha ht
  · rw [axis_setAxis_other _ _ _ _ he] at ht ⊢
    exact hH e ht

theorem go_posInv {S : ℤ} (hS1 : 1 < S) (t0 : ℚ) (events : List DetEvent)
    (ear : Fin 2) (t dirArg : ℤ) {s : EarsState} (hP : PosInv S s)
    (hH : HomingDirInv s) (hwf : EventsWF S events) :
    PosInv S (go S t0 events ear t dirArg s).1 := by
  have hseek : ∀ s', PosInv S s' → PosInv S (go_seek S ear t dirArg s').1 := by
    intro s' hP'
    exact fun e p hp =>
      hP' e p (go_seek_positions S ear t dirArg s' e ▸ hp)
  unfold go
  by_cases hu : s.ax0.position = none ∨ s.ax1.position = none
  · rw [if_pos hu]
    exact hseek _ (run_detection_inv hS1 t0 events (some 0) (some 0) hP hH hwf).1
  · rw [if_neg hu]
    exact hseek s hP

theorem encoder_cb_posInv {S : ℤ} (hS : 0 < S) (ear : Fin 2)
    {s s' : EarsState} {acts : List Gpio} (hP : PosInv S s)
    (h : encoder_cb S ear s = some (s', acts)) : PosInv S s' := by
  unfold encoder_cb at h
  cases hstep : axis_step S (s.axis ear) with
  | none =>
    rw [hstep] at h
    cases h
  | some pair =>
    obtain ⟨a', st⟩ := pair
    rw [hstep] at h
    cases h
    intro e p hp
    by_cases he : ear = e
    · subst he
      rw [axis_setAxis_self] at hp
      rcases axis_step_pos_range hS hstep with hnone | ⟨q, hq, h0, h1⟩
      · rw [hnone] at hp
        cases hp
      · rw [hq] at hp
        cases hp
        exact ⟨h0, h1⟩
    · rw [axis_setAxis_other _ _ _ _ he] at hp
      exact hP e p hp

theorem encoder_cb_stop_exact {S : ℤ} (ear : Fin 2) {s s' : EarsState}
    {acts : List Gpio} (hrun : (s.axis ear).running = true)
    (h : encoder_cb S ear s = some (s', acts))
    (hstop : (s'.axis ear).running = false) :
    ∃ t, (s.axis ear).target = some t ∧ (s'.axis ear).position = some t ∧
      t % S = t := by
  unfold encoder_cb at h
  cases hstep : axis_step S (s.axis ear) with
  | none =>
    rw [hstep] at h
    cases h
  | some pair =>
    obtain ⟨a', st⟩ := pair
    rw [hstep] at h
    cases h
    rw [axis_setAxis_self] at hstop
    obtain ⟨t, ht, hpos, hmod⟩ := axis_step_stop_exact hrun hstep hstop
    refine ⟨t, ht, ?_, hmod⟩
    rw [axis_setAxis_self]
    exact hpos

/-! ### Claim C9 -/

/-- C9 (amended) — Position-range invariant: the encoder callback, a full
detection run and `go` all preserve "each axis position is unknown or in
`[0, STEPS)`" while targets may lie outside that range; and whenever the
encoder callback stops a motor, it does so through the exact comparison
`position == target`, which at that moment coincides with comparing against
`target mod STEPS` because the target is then in range. -/
theorem C9_position_range_invariant :
    (∀ (S : ℤ) (ear : Fin 2) (s s' : EarsState) (acts : List Gpio), 0 < S →
      PosInv S s → encoder_cb S ear s = some (s', acts) → PosInv S s') ∧
    (∀ (S : ℤ) (t0 : ℚ) (events : List DetEvent) (tl tr : Option Int)
      (s : EarsState), 1 < S → PosInv S s → HomingDirInv s →
      EventsWF S events → PosInv S (run_detection S t0 events tl tr s).1) ∧
    (∀ (S : ℤ) (t0 : ℚ) (events : List DetEvent) (ear : Fin 2) (t dirArg : ℤ)
      (s : EarsState), 1 < S → PosInv S s → HomingDirInv s →
      EventsWF S events → PosInv S (go S t0 events ear t dirArg s).1) ∧
    (∀ (S : ℤ) (ear : Fin 2) (s s' : EarsState) (acts : List Gpio),
      (s.axis ear).running = true → encoder_cb S ear s = some (s', acts) →
      (s'.axis ear).running = false →
      ∃ t, (s.axis ear).target = some t ∧ (s'.axis ear).position = some t ∧
        t % S = t) :=
  ⟨fun S ear s s' acts hS hP h => encoder_cb_posInv hS ear hP h,
   fun S t0 events tl tr s hS1 hP hH hwf =>
     (run_detection_inv hS1 t0 events tl tr hP hH hwf).1,
   fun S t0 events ear t dirArg s hS1 hP hH hwf =>
     go_posInv hS1 t0 events ear t dirArg hP hH hwf,
   fun S ear s s' acts hrun h hstop => encoder_cb_stop_exact ear hrun h hstop⟩

/-- Counterexample to C9 as literally stated: on the edge taking the seeking
axis (STEPS = 16, target 20) from position 3 to position 4 = 20 mod 16, the
position equals `target mod STEPS`, yet the motor is not stopped (the target
is merely normalized to 4 and the motor keeps running) — so the stop
comparison is `position == target` with the raw target, not against
`target mod STEPS`. -/
theorem C9_counterexample :
    ((encoder_cb 16 0 c9_cex_state).map
      (fun r => ((r.1.axis 0).position, (r.1.axis 0).target,
        (r.1.axis 0).running))) = some (some (20 % 16), some 4, true) := by
  decide

/-- Witness for (amended) C9: the invariant-preservation conjuncts applied at
concrete inputs, and the stop-exactness conjunct applied at the scenario's
stop edge. -/
theorem C9_position_range_invariant_witness :
    PosInv 16 c9_after_state ∧
    (∃ t, (c9_stop_state.axis 0).target = some t ∧
      (c9_stop_after.axis 0).position = some t ∧ t % 16 = t) := by
  constructor
  · refine C9_position_range_invariant.1 16 0 c9_cex_state c9_after_state
      [] (by norm_num) ?_ ?_
    · intro e p hp
      fin_cases e <;> simp [EarsState.axis, c9_cex_state] at hp <;> omega
    · decide
  · refine C9_position_range_invariant.2.2.2 16 0 c9_stop_state c9_stop_after
      (stopActs 0) rfl ?_ rfl
    decide

/-! ### Claim C8 -/

/-- The start phase of a detection for one ear: an ear in unknown position is
reset to 0, put in homing mode and its motor started forward; a known ear is
untouched. -/
theorem detection_start_ear_spec (ear : Fin 2) (s : EarsState) :
    detection_start_ear ear s =
      (if (s.axis ear).position = none then
        (s.setAxis ear { s.axis ear with position := some 0, target := none, running := true, direction := 1 }, startActs ear 1)
      else (s, [])) := by
  unfold detection_start_ear start_motor
  split_ifs with h
  · simp only [axis_setAxis_self, setAxis_setAxis]
  · rfl

theorem detection_start_ear_other (ear e : Fin 2) (s : EarsState)
    (hne : ear ≠ e) : (detection_start_ear ear s).1.axis e = s.axis e := by
  unfold detection_start_ear
  split_ifs with h
  · simp only [start_motor]
    rw [axis_setAxis_other _ _ _ _ hne, axis_setAxis_other _ _ _ _ hne]
  · rfl

/-- The GPIO trace of `_run_detection`: exactly one forward motor start per
axis whose position is unknown — and nothing else before the wait loop. -/
theorem axis_zero (s : EarsState) : s.axis 0 = s.ax0 := rfl

theorem axis_one (s : EarsState) : s.axis 1 = s.ax1 := rfl

theorem setAxis_zero (s : EarsState) (a : AxisState) :
    s.setAxis 0 a = { s with ax0 := a } := rfl

theorem setAxis_one (s : EarsState) (a : AxisState) :
    s.setAxis 1 a = { s with ax1 := a } := rfl

theorem run_detection_acts (S : ℤ) (t0 : ℚ) (events : List DetEvent)
    (tl tr : Option Int) (s : EarsState) :
    (run_detection S t0 events tl tr s).2 =
      (if s.ax0.position = none then startActs 0 1 else []) ++
      (if s.ax1.position = none then startActs 1 1 else []) := by
  show (detection_start_ear 0 s).2 ++
      (detection_start_ear 1 (detection_start_ear 0 s).1).2 = _
  rw [detection_start_ear_spec 0 s]
  by_cases h0 : s.ax0.position = none <;>
    by_cases h1 : s.ax1.position = none <;>
      simp [detection_start_ear_spec, axis_zero, axis_one, setAxis_zero,
        setAxis_one, h0, h1]

/-- C8 (amended) — Transparent re-homing: with any axis position unknown,
`go` first runs a detection homing to targets (0, 0), its GPIO trace
prefixed by the detection's, which starts forward the motor of each unknown
axis (both motors only when both are unknown); with both positions known,
`detectPositions` returns the current (left, right) pair with no motor
actuation; no error is surfaced in either case (all operations are total). -/
theorem C8_transparent_rehoming :
    (∀ (S : ℤ) (t0 : ℚ) (events : List DetEvent) (tl tr : Option Int)
      (s : EarsState),
      (run_detection S t0 events tl tr s).2 =
        (if s.ax0.position = none then startActs 0 1 else []) ++
        (if s.ax1.position = none then startActs 1 1 else [])) ∧
    (∀ (S : ℤ) (t0 : ℚ) (events : List DetEvent) (ear : Fin 2) (t dirArg : ℤ)
      (s : EarsState), s.ax0.position = none ∨ s.ax1.position = none →
      go S t0 events ear t dirArg s =
        ((go_seek S ear t dirArg
            (run_detection S t0 events (some 0) (some 0) s).1).1,
         (run_detection S t0 events (some 0) (some 0) s).2 ++
           (go_seek S ear t dirArg
             (run_detection S t0 events (some 0) (some 0) s).1).2)) ∧
    (∀ (S : ℤ) (t0 : ℚ) (events : List DetEvent) (s : EarsState) (q0 q1 : Int),
      s.ax0.position = some q0 → s.ax1.position = some q1 →
      detect_positions S t0 events s = ((s, []), (some q0, some q1))) := by
  refine ⟨run_detection_acts, ?_, ?_⟩
  · intro S t0 events ear t dirArg s hu
    unfold go
    rw [if_pos hu]
  · intro S t0 events s q0 q1 h0 h1
    unfold detect_positions
    rw [if_neg (by rw [h0, h1]; simp), h0, h1]

/-- Counterexample to C8 as literally stated: with only the LEFT axis unknown
(STEPS = 16), the detection triggered by `detectPositions` starts only the
LEFT motor — the claimed "both motors started forward" is false, and the
RIGHT motor is never actuated. -/
theorem C8_counterexample :
    (detect_positions 16 0 [] c8_cex_state).1.2 = startActs 0 1 ∧
    ((detect_positions 16 0 [] c8_cex_state).1.1.axis 1).running = false := by
  decide

/-- Witness for (amended) C8: the `go`-triggers-detection conjunct at the
one-unknown-axis state, and the known-positions fast path of
`detectPositions` at the scenario state. -/
theorem C8_transparent_rehoming_witness :
    go 16 0 [] 0 4 0 c8_cex_state =
      ((go_seek 16 0 4 0 (run_detection 16 0 [] (some 0) (some 0) c8_cex_state).1).1,
       (run_detection 16 0 [] (some 0) (some 0) c8_cex_state).2 ++
         (go_seek 16 0 4 0
           (run_detection 16 0 [] (some 0) (some 0) c8_cex_state).1).2) ∧
    detect_positions 16 0 [] c1_scenario_state =
      ((c1_scenario_state, []), (some 5, some 0)) :=
  ⟨C8_transparent_rehoming.2.1 16 0 [] 0 4 0 c8_cex_state (Or.inl rfl),
   C8_transparent_rehoming.2.2 16 0 [] c1_scenario_state 5 0 rfl rfl⟩

/-! ### Claim C2 -/

theorem pget_pset_other {α : Type} (p : α × α) (e e' : Fin 2) (x : α)
    (h : e ≠ e') : pget (pset p e x) e' = pget p e' := by
  unfold pget pset
  fin_cases e <;> fin_cases e' <;> simp_all

/-- A signal iteration whose delta does not exceed 0.4 s never marks the gap:
the homing target stays untouched. -/
theorem signal_ear_no_gap (S : ℤ) (tl tr : Option Int) (now : ℚ) (ear : Fin 2)
    (ds : DetState) (h : now - pget ds.prev ear ≤ 2/5) :
    ((signal_ear S tl tr now ear ds).ears.axis ear).target =
      (ds.ears.axis ear).target := by
  unfold signal_ear
  split_ifs with h1 h2
  · exact absurd h2 (by linarith)
  · rfl
  · rfl

/-- A signal iteration with delta strictly greater than 0.4 s and observed
movement marks the gap: the target is set (caller target or source default)
and the position resolves to the direction increment. -/
theorem signal_ear_gap (S : ℤ) (tl tr : Option Int) (now : ℚ) (ear : Fin 2)
    (ds : DetState) (htgt : (ds.ears.axis ear).target = none)
    (hmove : (ds.ears.axis ear).position ≠ pget ds.cur ear)
    (h : now - pget ds.prev ear > 2/5) :
    ((signal_ear S tl tr now ear ds).ears.axis ear).target =
      some (gap_target tl tr ear (((ds.ears.axis ear).direction -
        optInt (ds.ears.axis ear).position) % S)) ∧
    ((signal_ear S tl tr now ear ds).ears.axis ear).position =
      some (ds.ears.axis ear).direction := by
  unfold signal_ear
  rw [if_pos ⟨htgt, hmove⟩, if_pos h]
  rw [axis_setAxis_self]
  exact ⟨rfl, rfl⟩

/-- A timeout iteration whose delta does not exceed 0.4 s never marks the
gap. -/
theorem timeout_ear_no_gap (S : ℤ) (tl tr : Option Int) (now : ℚ)
    (ear : Fin 2) (ds : DetState) (h : now - pget ds.prev ear ≤ 2/5) :
    ((timeout_ear S tl tr now ear ds).ears.axis ear).target =
      (ds.ears.axis ear).target := by
  unfold timeout_ear
  split_ifs with h1 h2
  · exact absurd h2 (by linarith)
  · rfl
  · rfl

/-- A timeout iteration (0.4 s of silence, strictly) marks the gap: the
target is set and the position resolves to 0. -/
theorem timeout_ear_gap (S : ℤ) (tl tr : Option Int) (now : ℚ) (ear : Fin 2)
    (ds : DetState) (htgt : (ds.ears.axis ear).target = none)
    (h : now - pget ds.prev ear > 2/5) :
    ((timeout_ear S tl tr now ear ds).ears.axis ear).target =
      some (gap_target tl tr ear ((- optInt (ds.ears.axis ear).position) % S)) ∧
    ((timeout_ear S tl tr now ear ds).ears.axis ear).position = some 0 := by
  unfold timeout_ear
  rw [if_pos htgt, if_pos h]
  rw [axis_setAxis_self]
  exact ⟨rfl, rfl⟩

/-- `signal_ear` leaves the other ear's loop-local bookkeeping alone. -/
theorem signal_ear_loop_other (S : ℤ) (tl tr : Option Int) (now : ℚ)
    (ear e : Fin 2) (ds : DetState) (h : ear ≠ e) :
    pget (signal_ear S tl tr now ear ds).prev e = pget ds.prev e ∧
    pget (signal_ear S tl tr now ear ds).cur e = pget ds.cur e := by
  unfold signal_ear
  split_ifs with h1 h2
  · exact ⟨pget_pset_other _ _ _ _ h, pget_pset_other _ _ _ _ h⟩
  · exact ⟨pget_pset_other _ _ _ _ h, pget_pset_other _ _ _ _ h⟩
  · exact ⟨rfl, rfl⟩

/-- `timeout_ear` never touches the loop-local bookkeeping. -/
theorem timeout_ear_loop (S : ℤ) (tl tr : Option Int) (now : ℚ)
    (ear : Fin 2) (ds : DetState) :
    (timeout_ear S tl tr now ear ds).prev = ds.prev ∧
    (timeout_ear S tl tr now ear ds).cur = ds.cur := by
  unfold timeout_ear
  split_ifs with h1 h2
  · exact ⟨rfl, rfl⟩
  · exact ⟨rfl, rfl⟩
  · exact ⟨rfl, rfl⟩

/-- The effect of `signal_ear` on its own ear depends only on that ear's
axis, snapshot and last-rising fields. -/
theorem signal_ear_congr (S : ℤ) (tl tr : Option Int) (now : ℚ) (ear : Fin 2)
    (d1 d2 : DetState) (hax : d1.ears.axis ear = d2.ears.axis ear)
    (hcur : pget d1.cur ear = pget d2.cur ear)
    (hprev : pget d1.prev ear = pget d2.prev ear) :
    (signal_ear S tl tr now ear d1).ears.axis ear =
      (signal_ear S tl tr now ear d2).ears.axis ear := by
  unfold signal_ear
  rw [hax, hcur, hprev]
  split_ifs with h1 h2
  · rw [axis_setAxis_self, axis_setAxis_self]
  · exact hax
  · exact hax

/-- The effect of `timeout_ear` on its own ear depends only on that ear's
axis and last-rising fields. -/
theorem timeout_ear_congr (S : ℤ) (tl tr : Option Int) (now : ℚ) (ear : Fin 2)
    (d1 d2 : DetState) (hax : d1.ears.axis ear = d2.ears.axis ear)
    (hprev : pget d1.prev ear = pget d2.prev ear) :
    (timeout_ear S tl tr now ear d1).ears.axis ear =
      (timeout_ear S tl tr now ear d2).ears.axis ear := by
  unfold timeout_ear
  rw [hax, hprev]
  split_ifs with h1 h2
  · rw [axis_setAxis_self, axis_setAxis_self]
  · exact hax
  · exact hax

/-- A signal iteration acts on each ear like `signal_ear` applied to the
observed state. -/
theorem detection_step_signal_axis (S : ℤ) (tl tr : Option Int) (now : ℚ)
    (obs : Option Int × Option Int) (ds : DetState) (e : Fin 2) :
    (detection_step S tl tr ds (DetEvent.signal now obs)).ears.axis e =
      (signal_ear S tl tr now e
        ⟨observe ds.ears obs, ds.cur, ds.prev⟩).ears.axis e := by
  fin_cases e
  · exact signal_ear_other S tl tr now 1 0 _ (by decide)
  · exact signal_ear_congr S tl tr now 1 _ _
      (signal_ear_other S tl tr now 0 1 _ (by decide))
      (signal_ear_loop_other S tl tr now 0 1 _ (by decide)).2
      (signal_ear_loop_other S tl tr now 0 1 _ (by decide)).1

/-- A timeout iteration acts on each ear like `timeout_ear`. -/
theorem detection_step_timeout_axis (S : ℤ) (tl tr : Option Int) (now : ℚ)
    (ds : DetState) (e : Fin 2) :
    (detection_step S tl tr ds (DetEvent.timeout now)).ears.axis e =
      (timeout_ear S tl tr now e ds).ears.axis e := by
  fin_cases e
  · exact timeout_ear_other S tl tr now 1 0 _ (by decide)
  · exact timeout_ear_congr S tl tr now 1 _ _
      (timeout_ear_other S tl tr now 0 1 _ (by decide))
      (congrArg (fun p => pget p 1) (timeout_ear_loop S tl tr now 0 ds).1)

/-- C2 (amended) — Homing gap threshold: during a detection, an iteration
whose time delta does not exceed 0.4 s (strictly: `delta > 0.4` is required)
never marks the missing-hole gap for a homing axis; a delta strictly greater
than 0.4 s between observed edges marks the gap found, sets the target to the
caller-specified one (or the source's return-to-origin default) and resolves
the axis position to the direction increment (1 for forward homing); 0.4 s of
silence (strictly) marks the gap found and resolves the position to 0. -/
theorem C2_homing_gap_threshold (S : ℤ) (tl tr : Option Int) (ds : DetState)
    (now : ℚ) (obs : Option Int × Option Int) (ear : Fin 2)
    (htgt : (ds.ears.axis ear).target = none) :
    (now - pget ds.prev ear ≤ 2/5 →
      ((detection_step S tl tr ds (DetEvent.signal now obs)).ears.axis
        ear).target = none ∧
      ((detection_step S tl tr ds (DetEvent.timeout now)).ears.axis
        ear).target = none) ∧
    (now - pget ds.prev ear > 2/5 → pget obs ear ≠ pget ds.cur ear →
      ((detection_step S tl tr ds (DetEvent.signal now obs)).ears.axis
        ear).target =
        some (gap_target tl tr ear
          (((ds.ears.axis ear).direction - optInt (pget obs ear)) % S)) ∧
      ((detection_step S tl tr ds (DetEvent.signal now obs)).ears.axis
        ear).position = some (ds.ears.axis ear).direction) ∧
    (now - pget ds.prev ear > 2/5 →
      ((detection_step S tl tr ds (DetEvent.timeout now)).ears.axis
        ear).target =
        some (gap_target tl tr ear
          ((- optInt (ds.ears.axis ear).position) % S)) ∧
      ((detection_step S tl tr ds (DetEvent.timeout now)).ears.axis
        ear).position = some 0) := by
  have hO := observe_fields ds.ears obs ear
  have hOt : ((observe ds.ears obs).axis ear).target = none := by
    rw [hO.2.2.2]
    exact htgt
  refine ⟨fun hle => ⟨?_, ?_⟩, fun hgt hmove => ?_, fun hgt => ?_⟩
  · rw [detection_step_signal_axis,
      signal_ear_no_gap S tl tr now ear ⟨observe ds.ears obs, ds.cur, ds.prev⟩ hle]
    exact hOt
  · rw [detection_step_timeout_axis,
      timeout_ear_no_gap S tl tr now ear ds hle]
    exact htgt
  · have hOm : ((observe ds.ears obs).axis ear).position ≠ pget ds.cur ear := by
      rw [hO.1]
      exact hmove
    obtain ⟨g1, g2⟩ := signal_ear_gap S tl tr now ear
      ⟨observe ds.ears obs, ds.cur, ds.prev⟩ hOt hOm hgt
    constructor
    · rw [detection_step_signal_axis, g1]
      show some (gap_target tl tr ear
        ((((observe ds.ears obs).axis ear).direction -
          optInt ((observe ds.ears obs).axis ear).position) % S)) = _
      rw [hO.1, hO.2.1]
    · rw [detection_step_signal_axis, g2]
      show some ((observe ds.ears obs).axis ear).direction = _
      rw [hO.2.1]
  · obtain ⟨g1, g2⟩ := timeout_ear_gap S tl tr now ear ds htgt hgt
    exact ⟨by rw [detection_step_timeout_axis]; exact g1,
      by rw [detection_step_timeout_axis]; exact g2⟩

/-- Counterexample to C2 as literally stated: with `previous_risings = 0`, a
signal iteration at time exactly 0.4 s (delta = 0.4, which the claim's "at
least 0.4 s" says marks the gap) does NOT mark the gap — the source requires
`delta > 0.4` strictly; and a later marking signal iteration (delta 1 s)
resolves the position to the direction increment 1, not to 0 as claimed. -/
theorem C2_counterexample :
    ((detection_step 16 none none c2_cex_ds
        (DetEvent.signal (2/5) (some 1, some 0))).ears.axis 0).target = none ∧
    ((detection_step 16 none none c2_cex_ds
        (DetEvent.signal 1 (some 1, some 0))).ears.axis 0).position = some 1 := by
  constructor
  · rw [detection_step_signal_axis,
      signal_ear_no_gap 16 none none (2/5) 0
        ⟨observe c2_cex_ds.ears (some 1, some 0), c2_cex_ds.cur, c2_cex_ds.prev⟩
        (by show (2:ℚ)/5 - 0 ≤ 2/5; norm_num)]
    rfl
  · rw [detection_step_signal_axis,
      (signal_ear_gap 16 none none 1 0
        ⟨observe c2_cex_ds.ears (some 1, some 0), c2_cex_ds.cur, c2_cex_ds.prev⟩
        rfl (by decide) (by show (1:ℚ) - 0 > 2/5; norm_num)).2]
    rfl

/-- Witness for (amended) C2 at the concrete homing state: delta exactly 0.4
does not mark the gap; a 0.5 s delta with observed movement marks it with the
default target and position 1; a 0.5 s silent delta marks it with position 0. -/
theorem C2_homing_gap_threshold_witness :
    (((detection_step 16 none none c2_cex_ds
        (DetEvent.signal (2/5) (some 1, some 0))).ears.axis 0).target = none ∧
     ((detection_step 16 none none c2_cex_ds
        (DetEvent.timeout (2/5))).ears.axis 0).target = none) ∧
    (((detection_step 16 none none c2_cex_ds
        (DetEvent.signal (1/2) (some 1, some 0))).ears.axis 0).target =
        some (gap_target none none 0
          (((c2_cex_ds.ears.axis 0).direction - optInt (some 1)) % 16)) ∧
     ((detection_step 16 none none c2_cex_ds
        (DetEvent.signal (1/2) (some 1, some 0))).ears.axis 0).position =
        some (c2_cex_ds.ears.axis 0).direction) ∧
    (((detection_step 16 none none c2_cex_ds
        (DetEvent.timeout (1/2))).ears.axis 0).target =
        some (gap_target none none 0
          ((- optInt (c2_cex_ds.ears.axis 0).position) % 16)) ∧
     ((detection_step 16 none none c2_cex_ds
        (DetEvent.timeout (1/2))).ears.axis 0).position = some 0) :=
  ⟨(C2_homing_gap_threshold 16 none none c2_cex_ds (2/5) (some 1, some 0) 0
      rfl).1 (by show (2:ℚ)/5 - 0 ≤ 2/5; norm_num),
   (C2_homing_gap_threshold 16 none none c2_cex_ds (1/2) (some 1, some 0) 0
      rfl).2.1 (by show (1:ℚ)/2 - 0 > 2/5; norm_num) (by decide),
   (C2_homing_gap_threshold 16 none none c2_cex_ds (1/2) (some 1, some 0) 0
      rfl).2.2 (by show (1:ℚ)/2 - 0 > 2/5; norm_num)⟩

/-! ### Claim C4 -/

/-- C4 — the code at the failing input: with a recording session live
(`currently_recording = True`, the recording worker stored in `future`),
`start_playing_preloaded` calls `stop_playing`, which does not clear
`currently_recording` but awaits the recording future — an await that never
completes since `_record` loops until the flag is cleared (modelled by
`none`).  The recording session is not stopped and playback never begins.  By
contrast `start_recording` during playback works: `stop_playing` clears the
playing flag, the playback worker finishes, and recording starts. -/
theorem C4_mutual_exclusion_code_bug :
    start_playing_preloaded ⟨false, true, some AudioWorker.recorder⟩ = none ∧
    stop_playing ⟨false, true, some AudioWorker.recorder⟩ = none ∧
    start_recording ⟨true, false, some AudioWorker.player⟩ =
      some ⟨false, true, some AudioWorker.recorder⟩ := by
  decide

/-! ### Claim C6 -/

/-- The callback sequence of a recording session whose device delivers
non-empty reads before the stop: one `(data, False)` per pre-stop period, then
exactly one final `(data, True)`. -/
theorem record_loop_shape :
    ∀ (n : Nat) (reads : Nat → Int × List Nat),
      (∀ i, i < n → (reads i).1 ≠ 0) →
      record_loop reads n =
        (List.range n).map (fun i => ((reads i).2, false)) ++
          [((reads n).2, true)] := by
  intro n
  induction n with
  | zero =>
    intro reads _
    rfl
  | succ m ih =>
    intro reads h
    show (if (reads 0).1 ≠ 0 then [((reads 0).2, false)] else []) ++
        record_loop (fun i => reads (i + 1)) m = _
    rw [if_pos (h 0 (by omega)),
      ih (fun i => reads (i + 1)) (fun i hi => h (i + 1) (by omega)),
      List.range_succ_eq_map]
    simp [List.map_map, Function.comp]

/-- C6 — Recording callback contract: the capture device is opened mono,
16 kHz, 16-bit signed little-endian, fixed period 1600 samples
(`record_config`); and for every session whose reads deliver full periods
(`l = 1600` frames, 3200 bytes) until the stop, every callback except the
final one carries exactly 3200 bytes with `isFinal = false`, and exactly one
callback has `isFinal = true`: the last one, issued for the iteration that
observes the cleared flag (its payload is the last read, possibly empty). -/
theorem C6_recording_contract :
    record_config = ⟨1, 16000, true, 1600⟩ ∧
    (∀ (reads : Nat → Int × List Nat) (n : Nat),
      (∀ i, i < n → (reads i).1 = 1600 ∧ (reads i).2.length = 3200) →
      record_loop reads n =
        (List.range n).map (fun i => ((reads i).2, false)) ++
          [((reads n).2, true)] ∧
      (∀ cb ∈ (record_loop reads n).dropLast, cb.2 = false ∧
        cb.1.length = 3200) ∧
      (record_loop reads n).getLast? = some ((reads n).2, true)) := by
  refine ⟨rfl, ?_⟩
  intro reads n h
  have hshape := record_loop_shape n reads
    (fun i hi => by rw [(h i hi).1]; norm_num)
  refine ⟨hshape, ?_, ?_⟩
  · intro cb hcb
    rw [hshape, List.dropLast_concat] at hcb
    obtain ⟨i, hi, hfi⟩ := List.mem_map.mp hcb
    rw [List.mem_range] at hi
    rw [← hfi]
    exact ⟨rfl, (h i hi).2⟩
  · rw [hshape]
    exact List.getLast?_concat _

/-- Witness for C6: a three-period session with full reads. -/
theorem C6_recording_contract_witness :
    record_loop (fun i => (1600, List.replicate 3200 i)) 2 =
      (List.range 2).map (fun i => (List.replicate 3200 i, false)) ++
        [(List.replicate 3200 2, true)] ∧
    (∀ cb ∈ (record_loop (fun i => (1600, List.replicate 3200 i)) 2).dropLast,
      cb.2 = false ∧ cb.1.length = 3200) ∧
    (record_loop (fun i => (1600, List.replicate 3200 i)) 2).getLast? =
      some (List.replicate 3200 2, true) :=
  C6_recording_contract.2 (fun i => (1600, List.replicate 3200 i)) 2
    (fun i _ => ⟨rfl, List.length_replicate 3200 i⟩)

/-! ### Claim C3 -/

theorem playWavLoop_nil (chunksize : Nat) (flag : Nat → Bool) (i : Nat) :
    playWavLoop chunksize flag i [] = [] := by
  unfold playWavLoop
  rw [dif_neg]
  simp

/-- A WAV stream played to its natural end is written in chunks of exactly
`chunksize` bytes; concatenated, the writes are the stream followed by the
zero padding that completes the last partial chunk. -/
theorem playWav_full (chunksize : Nat) (hc : 0 < chunksize) :
    ∀ (n : Nat) (bs : List Nat), bs.length ≤ n → ∀ (i : Nat),
      (∀ w ∈ playWavLoop chunksize (fun _ => true) i bs,
        w.length = chunksize) ∧
      (playWavLoop chunksize (fun _ => true) i bs).flatten =
        bs ++ List.replicate ((chunksize - bs.length % chunksize) % chunksize)
          0 := by
  intro n
  induction n with
  | zero =>
    intro bs hlen i
    have hbs : bs = [] := List.eq_nil_of_length_eq_zero (by omega)
    subst hbs
    rw [playWavLoop_nil]
    refine ⟨fun w hw => absurd hw (by simp), ?_⟩
    simp [Nat.mod_self]
  | succ n ih =>
    intro bs hlen i
    by_cases hbs : bs = []
    · subst hbs
      rw [playWavLoop_nil]
      refine ⟨fun w hw => absurd hw (by simp), ?_⟩
      simp [Nat.mod_self]
    · have h1 : bs.take chunksize ≠ [] := by
        intro h
        rcases List.take_eq_nil_iff.mp h with h' | h'
        · omega
        · exact hbs h'
      have heq : playWavLoop chunksize (fun _ => true) i bs =
          (if (bs.take chunksize).length < chunksize then
            bs.take chunksize ++
              List.replicate (chunksize - (bs.take chunksize).length) 0
          else bs.take chunksize) ::
            playWavLoop chunksize (fun _ => true) (i + 1) (bs.drop chunksize) := by
        conv_lhs => rw [playWavLoop.eq_def]
        rw [dif_pos ⟨h1, rfl⟩]
      by_cases hlt : bs.length < chunksize
      · have htake : bs.take chunksize = bs := List.take_of_length_le (by omega)
        have hdrop : bs.drop chunksize = [] := List.drop_eq_nil_of_le (by omega)
        rw [heq, htake, hdrop, playWavLoop_nil, if_pos (by omega)]
        have hpos : 0 < bs.length := List.length_pos.mpr hbs
        constructor
        · intro w hw
          rcases List.mem_singleton.mp hw with hw
          rw [hw]
          simp
          omega
        · have hmod : bs.length % chunksize = bs.length := Nat.mod_eq_of_lt hlt
          have hmod2 : (chunksize - bs.length) % chunksize =
              chunksize - bs.length := Nat.mod_eq_of_lt (by omega)
          rw [hmod, hmod2]
          simp
      · push_neg at hlt
        have hlen2 : (bs.drop chunksize).length ≤ n := by
          rw [List.length_drop]
          omega
        obtain ⟨ihW, ihJ⟩ := ih (bs.drop chunksize) hlen2 (i + 1)
        have htlen : (bs.take chunksize).length = chunksize := by
          rw [List.length_take]
          omega
        rw [heq, if_neg (by omega)]
        constructor
        · intro w hw
          rcases List.mem_cons.mp hw with hw | hw
          · rw [hw]
            exact htlen
          · exact ihW w hw
        · show bs.take chunksize ++
            (playWavLoop chunksize (fun _ => true) (i + 1)
              (bs.drop chunksize)).flatten = _
          rw [ihJ, List.length_drop]
          have hmod : (bs.length - chunksize) % chunksize =
              bs.length % chunksize := by
            have h2 : bs.length - chunksize + chunksize = bs.length := by omega
            calc (bs.length - chunksize) % chunksize
                = (bs.length - chunksize + chunksize) % chunksize :=
                  (Nat.add_mod_right _ _).symm
              _ = bs.length % chunksize := by rw [h2]
          rw [hmod, ← List.append_assoc, List.take_append_drop]

/-- The MP3 frame loop with the session active throughout: every write is one
full period, the writes plus the leftover chunk reassemble the decoded
stream, and the leftover stays shorter than a period. -/
theorem playMp3Loop_full (target : Nat) :
    ∀ (frames : List (List Nat)) (i : Nat) (chunk : List Nat),
      chunk.length < target → (∀ f ∈ frames, f.length ≤ target) →
      (∀ w ∈ (playMp3Loop target (fun _ => true) i chunk frames).1,
        w.length = target) ∧
      (playMp3Loop target (fun _ => true) i chunk frames).1.flatten ++
        (playMp3Loop target (fun _ => true) i chunk frames).2 =
        chunk ++ frames.flatten ∧
      (playMp3Loop target (fun _ => true) i chunk frames).2.length < target := by
  intro frames
  induction frames with
  | nil =>
    intro i chunk hlen _
    have h0 : playMp3Loop target (fun _ => true) i chunk [] = ([], chunk) := rfl
    rw [h0]
    refine ⟨fun w hw => absurd hw (by simp), ?_, hlen⟩
    simp
  | cons frame rest ih =>
    intro i chunk hlen hframes
    have hframe : frame.length ≤ target := hframes frame (by simp)
    have hrest : ∀ f ∈ rest, f.length ≤ target :=
      fun f hf => hframes f (List.mem_cons_of_mem _ hf)
    have hcons : playMp3Loop target (fun _ => true) i chunk (frame :: rest) =
        ((mp3_step target chunk frame).1 ++
          (playMp3Loop target (fun _ => true) (i + 1)
            (mp3_step target chunk frame).2 rest).1,
         (playMp3Loop target (fun _ => true) (i + 1)
            (mp3_step target chunk frame).2 rest).2) := rfl
    by_cases hacc : chunk.length + frame.length < target
    · have hstep : mp3_step target chunk frame = ([], chunk ++ frame) := by
        unfold mp3_step
        rw [if_pos hacc]
      have heq : playMp3Loop target (fun _ => true) i chunk (frame :: rest) =
          ((playMp3Loop target (fun _ => true) (i + 1) (chunk ++ frame) rest).1,
           (playMp3Loop target (fun _ => true) (i + 1) (chunk ++ frame) rest).2) := by
        rw [hcons, hstep]
        simp
      obtain ⟨ihW, ihJ, ihL⟩ := ih (i + 1) (chunk ++ frame)
        (by rw [List.length_append]; omega) hrest
      rw [heq]
      refine ⟨ihW, ?_, ihL⟩
      rw [ihJ]
      simp
    · have hrem : ((target : Int) - (chunk.length : Int)).toNat =
          target - chunk.length := by omega
      have htake : pyTake ((target : Int) - (chunk.length : Int)) frame =
          frame.take (target - chunk.length) := by
        unfold pyTake
        rw [if_pos (by omega), hrem]
      have hdrop : pyDrop ((target : Int) - (chunk.length : Int)) frame =
          frame.drop (target - chunk.length) := by
        unfold pyDrop
        rw [if_pos (by omega), hrem]
      have hstep : mp3_step target chunk frame =
          ([chunk ++ frame.take (target - chunk.length)],
           frame.drop (target - chunk.length)) := by
        unfold mp3_step
        rw [if_neg hacc, htake, hdrop]
      have heq : playMp3Loop target (fun _ => true) i chunk (frame :: rest) =
          ((chunk ++ frame.take (target - chunk.length)) ::
            (playMp3Loop target (fun _ => true) (i + 1)
              (frame.drop (target - chunk.length)) rest).1,
           (playMp3Loop target (fun _ => true) (i + 1)
              (frame.drop (target - chunk.length)) rest).2) := by
        rw [hcons, hstep]
        rfl
      have hwlen : (chunk ++ frame.take (target - chunk.length)).length =
          target := by
        rw [List.length_append, List.length_take]
        omega
      have hdlen : (frame.drop (target - chunk.length)).length < target := by
        rw [List.length_drop]
        omega
      obtain ⟨ihW, ihJ, ihL⟩ := ih (i + 1)
        (frame.drop (target - chunk.length)) hdlen hrest
      rw [heq]
      refine ⟨?_, ?_, ihL⟩
      · intro w hw
        rcases List.mem_cons.mp hw with hw | hw
        · rw [hw]
          exact hwlen
        · exact ihW w hw
      · show (chunk ++ frame.take (target - chunk.length)) ++
            (playMp3Loop target (fun _ => true) (i + 1)
              (frame.drop (target - chunk.length)) rest).1.flatten ++
            (playMp3Loop target (fun _ => true) (i + 1)
              (frame.drop (target - chunk.length)) rest).2 =
          chunk ++ (frame :: rest).flatten
        rw [List.append_assoc, ihJ]
        simp only [List.flatten_cons, ← List.append_assoc]
        rw [List.append_assoc chunk, List.take_append_drop]

/-- C3 — Playback chunking: for WAV and MP3 sessions that run to natural end
of stream (the active flag never observed cleared), every device write is
exactly `periodSize * channels * width` bytes where `periodSize` is one tenth
of the sample rate, and the written byte stream is the decoded stream followed
by the zero padding of the final partial period.  MP3 decoder frames are
shorter than a period (true of every rate/layer pair the decoder produces),
which the loop needs to keep its chunk accumulator below one period. -/
theorem C3_playback_chunking :
    (∀ (rate channels width : Nat) (bs : List Nat),
      0 < wav_chunksize rate channels width →
      (∀ w ∈ playWav (wav_chunksize rate channels width) (fun _ => true) bs,
        w.length = wav_chunksize rate channels width) ∧
      ∃ k, k < wav_chunksize rate channels width ∧
        (playWav (wav_chunksize rate channels width) (fun _ => true)
          bs).flatten = bs ++ List.replicate k 0) ∧
    (∀ (rate channels width : Nat) (frames : List (List Nat)),
      0 < mp3_target_chunk_size rate channels width →
      (∀ f ∈ frames, f.length ≤ mp3_target_chunk_size rate channels width) →
      (∀ w ∈ playMp3 (mp3_target_chunk_size rate channels width)
        (fun _ => true) frames,
        w.length = mp3_target_chunk_size rate channels width) ∧
      ∃ k, (playMp3 (mp3_target_chunk_size rate channels width)
        (fun _ => true) frames).flatten = frames.flatten ++
          List.replicate k 0) := by
  constructor
  · intro rate channels width bs hc
    obtain ⟨hW, hJ⟩ := playWav_full (wav_chunksize rate channels width) hc
      bs.length bs le_rfl 0
    exact ⟨hW, _, Nat.mod_lt _ hc, hJ⟩
  · intro rate channels width frames hc hframes
    obtain ⟨hW, hJ, hL⟩ := playMp3Loop_full
      (mp3_target_chunk_size rate channels width) frames 0 [] hc hframes
    constructor
    · intro w hw
      unfold playMp3 at hw
      rcases List.mem_append.mp hw with hw | hw
      · exact hW w hw
      · by_cases hch : 0 < (playMp3Loop (mp3_target_chunk_size rate channels
            width) (fun _ => true) 0 [] frames).2.length
        · rw [if_pos hch] at hw
          rcases List.mem_singleton.mp hw with hw
          rw [hw]
          rw [List.length_append, List.length_replicate]
          omega
        · rw [if_neg hch] at hw
          exact absurd hw (by simp)
    · unfold playMp3
      by_cases hch : 0 < (playMp3Loop (mp3_target_chunk_size rate channels
          width) (fun _ => true) 0 [] frames).2.length
      · refine ⟨mp3_target_chunk_size rate channels width -
          (playMp3Loop (mp3_target_chunk_size rate channels width)
            (fun _ => true) 0 [] frames).2.length, ?_⟩
        rw [if_pos hch]
        rw [List.flatten_append]
        simp only [List.flatten_cons, List.flatten_nil, List.append_nil]
        rw [← List.append_assoc, hJ]
        simp
      · refine ⟨0, ?_⟩
        rw [if_neg hch]
        have h2 : (playMp3Loop (mp3_target_chunk_size rate channels width)
            (fun _ => true) 0 [] frames).2 = [] := by
          have := List.eq_nil_of_length_eq_zero (by omega :
            (playMp3Loop (mp3_target_chunk_size rate channels width)
              (fun _ => true) 0 [] frames).2.length = 0)
          exact this
        rw [h2, List.append_nil] at hJ
        simp [hJ]

/-- Witness for C3: a 6-byte WAV stream at chunk size 4 (rate 40, mono,
8-bit), and three MP3 frames at period 4. -/
theorem C3_playback_chunking_witness :
    ((∀ w ∈ playWav (wav_chunksize 40 1 1) (fun _ => true) [1, 2, 3, 4, 5, 6],
        w.length = wav_chunksize 40 1 1) ∧
      ∃ k, k < wav_chunksize 40 1 1 ∧
        (playWav (wav_chunksize 40 1 1) (fun _ => true)
          [1, 2, 3, 4, 5, 6]).flatten = [1, 2, 3, 4, 5, 6] ++
            List.replicate k 0) ∧
    ((∀ w ∈ playMp3 (mp3_target_chunk_size 40 1 1) (fun _ => true)
        [[1, 2], [3, 4, 5], [6]],
        w.length = mp3_target_chunk_size 40 1 1) ∧
      ∃ k, (playMp3 (mp3_target_chunk_size 40 1 1) (fun _ => true)
        [[1, 2], [3, 4, 5], [6]]).flatten = [[1, 2], [3, 4, 5], [6]].flatten ++
          List.replicate k 0) :=
  ⟨C3_playback_chunking.1 40 1 1 [1, 2, 3, 4, 5, 6] (by decide),
   C3_playback_chunking.2 40 1 1 [[1, 2], [3, 4, 5], [6]] (by decide)
     (by intro f hf; fin_cases hf <;> simp [mp3_target_chunk_size, periodsize])⟩

/-- C5 — Stop semantics as the code implements them.  WAV: the flag is
checked before every write, so from the first iteration at which it is
observed cleared the loop writes nothing (any unwritten data is discarded,
and WAV buffers no partial chunk).  MP3: when the flag is observed cleared
at the check after frame `i`, the loop still performs that frame's
accumulate-or-write step and then breaks; moreover the epilogue always pads
and WRITES a non-empty buffered partial chunk — it is flushed, not
discarded, which is where the claim's wording fails. -/
theorem C5_stop_semantics (chunksize target i : Nat) (flag : Nat → Bool)
    (bs chunk frame : List Nat) (rest frames : List (List Nat))
    (hflag : flag i = false) :
    playWavLoop chunksize flag i bs = [] ∧
    playMp3Loop target flag i chunk (frame :: rest) =
      mp3_step target chunk frame ∧
    (0 < (playMp3Loop target flag 0 [] frames).2.length →
      playMp3 target flag frames =
        (playMp3Loop target flag 0 [] frames).1 ++
          [(playMp3Loop target flag 0 [] frames).2 ++
            List.replicate
              (target - (playMp3Loop target flag 0 [] frames).2.length) 0]) := by
  refine ⟨?_, ?_, ?_⟩
  · rw [playWavLoop.eq_def]
    simp [hflag]
  · simp [playMp3Loop, hflag]
  · intro h
    unfold playMp3
    rw [if_pos h]

/-- Witness for C5 at chunk size 4: flag cleared from the start, a 3-byte
WAV stream, one short MP3 frame being accumulated, and a session whose loop
leaves the 2-byte chunk [7, 8] buffered. -/
theorem C5_stop_semantics_witness :
    (fun _ : Nat => false) 0 = false ∧
    (playWavLoop 4 (fun _ => false) 0 [1, 2, 3] = [] ∧
     playMp3Loop 4 (fun _ => false) 0 [] [[9]] = mp3_step 4 [] [9] ∧
     (0 < (playMp3Loop 4 (fun _ => false) 0 [] [[7, 8]]).2.length →
       playMp3 4 (fun _ => false) [[7, 8]] =
         (playMp3Loop 4 (fun _ => false) 0 [] [[7, 8]]).1 ++
           [(playMp3Loop 4 (fun _ => false) 0 [] [[7, 8]]).2 ++
             List.replicate
               (4 - (playMp3Loop 4 (fun _ => false) 0 [] [[7, 8]]).2.length)
               0])) :=
  ⟨rfl, C5_stop_semantics 4 4 0 (fun _ => false) [1, 2, 3] [] [9] [] [[7, 8]] rfl⟩

/-- Counterexample to C5 as stated: the flag is cleared before the first
MP3 frame is processed, yet the buffered 2-byte partial chunk is padded and
written by the epilogue — one device write happens after the stop, and the
partial chunk is flushed rather than discarded. -/
theorem C5_counterexample :
    playMp3 4 (fun _ => false) [[1, 2]] = [[1, 2, 0, 0]] := by decide

end Pynab
